import Mathlib

/-!
Verification development for `extrair_pdf.py` (repository luizanisio/extrator_pdf).

Strings are modelled as `List Char`.  Each definition is a direct translation of
the corresponding Python code; the source location is given in its doc comment.
Where the Python code performs I/O or calls the external docling converter, the
environment (file system entries, converter results, per-file job outcomes) is
passed in explicitly as data.
-/

namespace ExtratorPdf

/-! ### Basic characters and character classes -/

/-- Newline character. -/
def nl : Char := Char.ofNat 10

/-- Tab character. -/
def tabCh : Char := Char.ofNat 9

/-- Backtick character (member of the repeated-punctuation class). -/
def craseCh : Char := Char.ofNat 96

/-- Apostrophe character (member of the repeated-punctuation class). -/
def apostrofeCh : Char := Char.ofNat 39

/-- Opening curly brace (member of the repeated-punctuation class). -/
def chaveAbreCh : Char := Char.ofNat 123

/-- Closing curly brace (member of the repeated-punctuation class). -/
def chaveFechaCh : Char := Char.ofNat 125

/-- Horizontal whitespace, the character class `[ \t]` of `limpar_texto`. -/
def ehHoriz (c : Char) : Bool := c == ' ' || c == tabCh

/-- The character class of `RE_LIMPEZA_REPETICAO` in the source
(`extrair_pdf.py` line 158): `. , ; + - _ ? ! : ( ) [ ] { } | @ # $ % ^ & * = ~`
together with backtick and apostrophe. -/
def pontuacaoRepetivel : List Char :=
  ['.', ',', ';', '+', '-', '_', '?', '!', ':', '(', ')', '[', ']',
   chaveAbreCh, chaveFechaCh, '|', '@', '#', '$', '%', '^', '&', '*', '=', '~',
   craseCh, apostrofeCh]

/-- Membership in the repeated-punctuation class. -/
def ehPontuacao (c : Char) : Bool := pontuacaoRepetivel.contains c

/-- Whitespace as stripped by Python `str.strip()` (ASCII whitespace:
space, tab, newline, carriage return, vertical tab, form feed). -/
def ehEspacoPy (c : Char) : Bool :=
  c == ' ' || c == tabCh || c == nl || c == Char.ofNat 13 ||
  c == Char.ofNat 11 || c == Char.ofNat 12

/-! ### `limpar_texto` (extrair_pdf.py lines 158-167)

The Python function applies three regex substitutions and then strips:
1. `re.sub(r'[ \t]+', ' ', texto)` — each maximal run of spaces/tabs
   becomes a single space;
2. `re.sub(r'\n{3,}', '\n\n', texto)` — each maximal run of 3 or more
   newlines becomes exactly two;
3. `RE_LIMPEZA_REPETICAO.sub(r'\1', texto)` — each maximal run of 2 or more
   identical punctuation characters becomes a single occurrence;
4. `texto.strip()`.
Each stage is implemented below as a single left-to-right scan, which is
exactly the semantics of the corresponding regex substitution (all three
patterns are deterministic maximal-run matchers). -/

/-- Stage 1 scan.  `emRun` records whether the previous character belonged to a
run of horizontal whitespace whose replacement space was already emitted. -/
def colapsaHorizAux : Bool → List Char → List Char
  | _, [] => []
  | emRun, c :: resto =>
    if ehHoriz c then
      if emRun then colapsaHorizAux true resto
      else ' ' :: colapsaHorizAux true resto
    else c :: colapsaHorizAux false resto

/-- Stage 1: `re.sub(r'[ \t]+', ' ', texto)`. -/
def colapsaHoriz (l : List Char) : List Char := colapsaHorizAux false l

/-- Replacement for a run of `k` consecutive newlines: runs of 3 or more
become 2, shorter runs are kept as they are (`\n{3,}` does not match them). -/
def emiteNl (k : Nat) : List Char := List.replicate (if 3 ≤ k then 2 else k) nl

/-- Stage 2 scan.  `k` counts the newlines of the run currently being read. -/
def colapsaNlAux : Nat → List Char → List Char
  | k, [] => emiteNl k
  | k, c :: resto =>
    if c = nl then colapsaNlAux (k + 1) resto
    else emiteNl k ++ c :: colapsaNlAux 0 resto

/-- Stage 2: `re.sub(r'\n{3,}', '\n\n', texto)`. -/
def colapsaNl (l : List Char) : List Char := colapsaNlAux 0 l

/-- Stage 3 scan.  `ant` is the previously emitted character: a punctuation
character equal to it is part of a run already reduced to one occurrence. -/
def colapsaPontAux : Option Char → List Char → List Char
  | _, [] => []
  | ant, c :: resto =>
    if ehPontuacao c ∧ ant = some c then colapsaPontAux ant resto
    else c :: colapsaPontAux (some c) resto

/-- Stage 3: `RE_LIMPEZA_REPETICAO.sub(r'\1', texto)`. -/
def colapsaPont (l : List Char) : List Char := colapsaPontAux none l

/-- Python `str.strip()`: drop leading and trailing whitespace. -/
def tiraPontas (l : List Char) : List Char :=
  ((l.dropWhile ehEspacoPy).reverse.dropWhile ehEspacoPy).reverse

/-- `limpar_texto` (extrair_pdf.py lines 159-167). -/
def limpar_texto (l : List Char) : List Char :=
  tiraPontas (colapsaPont (colapsaNl (colapsaHoriz l)))

/-! ### Decidable shape predicates used to state the normalizer's properties

`temPar f l` holds when at some position of `l` the local test `f` succeeds on
the character there and the remaining text.  The four instances below express
"contains a tab", "contains two adjacent horizontal-whitespace characters",
"contains three consecutive newlines" and "contains two adjacent identical
punctuation characters". -/

/-- Some position of the text satisfies the local test `f`. -/
def temPar (f : Char → List Char → Bool) : List Char → Bool
  | [] => false
  | c :: resto => f c resto || temPar f resto

/-- The first character, if any, is horizontal whitespace. -/
def horizCabeca : List Char → Bool
  | [] => false
  | d :: _ => ehHoriz d

/-- The first two characters exist and are newlines. -/
def duasNlCabeca : List Char → Bool
  | a :: b :: _ => a == nl && b == nl
  | _ => false

/-- The first character, if any, equals `c`. -/
def cabecaEh (c : Char) : List Char → Bool
  | [] => false
  | d :: _ => d == c

/-- The text contains a tab character. -/
def temTab : List Char → Bool := temPar (fun c _ => c == tabCh)

/-- The text contains two adjacent horizontal-whitespace characters. -/
def temDoisHoriz : List Char → Bool :=
  temPar (fun c resto => ehHoriz c && horizCabeca resto)

/-- The text contains three consecutive newlines. -/
def temTresNl : List Char → Bool :=
  temPar (fun c resto => c == nl && duasNlCabeca resto)

/-- The text contains two adjacent identical punctuation characters. -/
def temParPontIgual : List Char → Bool :=
  temPar (fun c resto => ehPontuacao c && cabecaEh c resto)

/-! ### Decimal rendering and the `<IMAGEM:NNN>` / `<PAGINA:NNN>` tags

Python renders the counters with `f"{n:03d}"`: decimal digits left-padded
with zeros to width 3. -/

/-- Decimal digit character for `d < 10`. -/
def digitoCh (d : Nat) : Char := Char.ofNat (48 + d)

/-- Decimal digits of `n`, most significant first; fuel-based so that it is
structurally recursive (the fuel `n + 1` always suffices). -/
def decimaisAux : Nat → Nat → List Char
  | 0, _ => []
  | fuel + 1, n =>
    if n < 10 then [digitoCh n]
    else decimaisAux fuel (n / 10) ++ [digitoCh (n % 10)]

/-- Decimal digits of `n`. -/
def decimais (n : Nat) : List Char := decimaisAux (n + 1) n

/-- `f"{n:03d}"`: zero-padded to at least 3 digits. -/
def fmt3 (n : Nat) : List Char := List.leftpad 3 '0' (decimais n)

/-- The image tag `<IMAGEM:NNN>` (extrair_pdf.py lines 275 and 354). -/
def etiquetaImagem (n : Nat) : List Char :=
  '<' :: 'I' :: 'M' :: 'A' :: 'G' :: 'E' :: 'M' :: ':' :: (fmt3 n ++ ['>'])

/-- The page tag `<PAGINA:NNN>` (extrair_pdf.py lines 377 and 386). -/
def etiquetaPagina (n : Nat) : List Char :=
  '<' :: 'P' :: 'A' :: 'G' :: 'I' :: 'N' :: 'A' :: ':' :: (fmt3 n ++ ['>'])

/-! ### The image-reference patterns of `_substituir_imagens_markdown`
(extrair_pdf.py lines 261-281)

Each `padroes` entry is a regex applied with `re.IGNORECASE`.  All six are
deterministic: a literal head, then a negated character class run up to the
closing delimiter.  Each matcher below takes the text starting at a candidate
position and returns the rest of the text after the match, or `none`. -/

/-- Matcher for `!\[([^\]]*)\]\([^\)]+\)` (markdown image `![alt](url)`). -/
def matchMdImg : List Char → Option (List Char)
  | x :: y :: resto =>
    if x = '!' ∧ y = '[' then
      match resto.dropWhile (fun c => !(c == ']')) with
      | c1 :: c2 :: resto2 =>
        if c1 = ']' ∧ c2 = '(' then
          match resto2.dropWhile (fun c => !(c == ')')) with
          | c3 :: resto3 =>
            if (resto2.takeWhile (fun c => !(c == ')'))).isEmpty ∨ ¬c3 = ')' then none
            else some resto3
          | [] => none
        else none
      | _ => none
    else none
  | _ => none

/-- Matcher for `<img[^>]*>`, case-insensitive. -/
def matchImgHtml : List Char → Option (List Char)
  | x :: a :: b :: c :: resto =>
    if x = '<' ∧ a.toLower = 'i' ∧ b.toLower = 'm' ∧ c.toLower = 'g' then
      match resto.dropWhile (fun d => !(d == '>')) with
      | e :: resto2 => if e = '>' then some resto2 else none
      | [] => none
    else none
  | _ => none

/-- Case-insensitive literal-word match: consumes `palavra` (given in lower
case) from the head of the text. -/
def casaCI : List Char → List Char → Option (List Char)
  | [], l => some l
  | _ :: _, [] => none
  | c :: cs, x :: xs => if x.toLower = c then casaCI cs xs else none

/-- Matcher for `\[palavra[^\]]*\]`, case-insensitive
(`palavra` ranges over image, figure, figura, imagem). -/
def matchColchete (palavra : List Char) : List Char → Option (List Char)
  | x :: resto =>
    if x = '[' then
      match casaCI palavra resto with
      | some resto2 =>
        match resto2.dropWhile (fun d => !(d == ']')) with
        | e :: resto3 => if e = ']' then some resto3 else none
        | [] => none
      | none => none
    else none
  | [] => none

/-! ### The substitution scan of `re.sub` with the counting callback

`re.sub(padrao, substituir, texto)` scans left to right; at each position the
pattern is tried, a match is replaced by the next `<IMAGEM:NNN>` tag (the
callback increments `self.contador_imagens` first), and scanning resumes after
the replaced text.  None of the six patterns can match the empty string, so
fuel `l.length` always suffices; when fuel runs out the scanner returns the
remaining text unchanged. -/

/-- One `re.sub(padrao, substituir, ...)` pass with matcher `m`, counter `c`. -/
def subPatAux (m : List Char → Option (List Char)) :
    Nat → Nat → List Char → Nat × List Char
  | 0, c, l => (c, l)
  | _ + 1, c, [] => (c, [])
  | fuel + 1, c, x :: resto =>
    match m (x :: resto) with
    | some resto2 =>
      let r := subPatAux m fuel (c + 1) resto2
      (r.1, etiquetaImagem (c + 1) ++ r.2)
    | none =>
      let r := subPatAux m fuel c resto
      (r.1, x :: r.2)

/-- One full `re.sub` pass. -/
def subPat (m : List Char → Option (List Char)) (c : Nat) (l : List Char) :
    Nat × List Char :=
  subPatAux m l.length c l

/-- The tag numbers emitted by one `re.sub` pass (the successive values taken
by `self.contador_imagens` inside the callback). -/
def tagsPatAux (m : List Char → Option (List Char)) :
    Nat → Nat → List Char → List Nat
  | 0, _, _ => []
  | _ + 1, _, [] => []
  | fuel + 1, c, x :: resto =>
    match m (x :: resto) with
    | some resto2 => (c + 1) :: tagsPatAux m fuel (c + 1) resto2
    | none => tagsPatAux m fuel c resto

/-- Tag numbers emitted by one full `re.sub` pass. -/
def tagsPat (m : List Char → Option (List Char)) (c : Nat) (l : List Char) :
    List Nat :=
  tagsPatAux m l.length c l

/-- The fixed pattern list `padroes` of `_substituir_imagens_markdown`,
in source order. -/
def padroesImagem : List (List Char → Option (List Char)) :=
  [matchMdImg, matchImgHtml,
   matchColchete ("image".toList), matchColchete ("figure".toList),
   matchColchete ("figura".toList), matchColchete ("imagem".toList)]

/-- The `for padrao in padroes` loop: each pattern is fully applied (all its
matches replaced) before the next pattern runs; the counter is shared. -/
def aplicaPadroes : List (List Char → Option (List Char)) → Nat → List Char →
    Nat × List Char
  | [], c, l => (c, l)
  | m :: ms, c, l =>
    let r := subPat m c l
    aplicaPadroes ms r.1 r.2

/-- `ExtrairPdf._substituir_imagens_markdown` (extrair_pdf.py lines 261-281),
with the instance counter passed and returned explicitly. -/
def substituirImagens (c : Nat) (l : List Char) : Nat × List Char :=
  aplicaPadroes padroesImagem c l

/-- All tag numbers emitted across the whole pattern list, in emission order. -/
def etiquetasPadroes : List (List Char → Option (List Char)) → Nat → List Char →
    List Nat
  | [], _, _ => []
  | m :: ms, c, l =>
    let r := subPat m c l
    tagsPat m c l ++ etiquetasPadroes ms r.1 r.2

/-- Tag numbers emitted by one `_substituir_imagens_markdown` call. -/
def etiquetasEmitidas (c : Nat) (l : List Char) : List Nat :=
  etiquetasPadroes padroesImagem c l

/-! ### The converter item stream and the page-assembly loop of
`ExtrairPdf.extrair` (extrair_pdf.py lines 336-391)

A docling item is read through three accesses: its `prov` records (each may
or may not carry a `page_no`), its type name (lower-cased and tested for the
substrings picture / image / figure), and its content.  Content resolution
(lines 350-365) is: `item.export_to_markdown(documento)`, retried without the
argument on `TypeError` (any failure of the retry is swallowed by a bare
`except`), falling back to `item.text`, falling back to the empty string.
An exception other than `TypeError` raised by `export_to_markdown(documento)`
propagates to the job-level handler (modelled with `AmbienteJob` below). -/

/-- Outcome of the `export_to_markdown` attempt chain for one item. -/
inductive ExportMd where
  /-- The item has no `export_to_markdown` attribute. -/
  | semAtributo
  /-- `item.export_to_markdown(documento)` returned `s`. -/
  | ok (s : List Char)
  /-- The call with argument raised `TypeError`; the retry without argument
  returned `s`. -/
  | tipoErroDepoisOk (s : List Char)
  /-- The call with argument raised `TypeError`; the retry raised too. -/
  | tipoErroDepoisFalha
deriving DecidableEq

/-- One item of `documento.iterate_items()`. -/
structure ItemConversao where
  /-- The `prov` records: `some p` for a record with a `page_no`, `none` for
  a record without one.  An absent or empty `prov` attribute is `[]`. -/
  prov : List (Option Nat)
  /-- `type(item).__name__` (not yet lower-cased). -/
  nomeTipo : List Char
  /-- Outcome of the markdown-export attempt chain. -/
  exportMd : ExportMd
  /-- `item.text` if the attribute exists, else `none`. -/
  texto : Option (List Char)
deriving DecidableEq

/-- Page attribution (lines 340-345): the first `prov` record that has a
`page_no` gives the page; default is 1. -/
def paginaDoItem (it : ItemConversao) : Nat :=
  match it.prov.findSome? id with
  | some p => p
  | none => 1

/-- `pat` is a prefix of `l`. -/
def comecaCom : List Char → List Char → Bool
  | [], _ => true
  | _ :: _, [] => false
  | a :: as, b :: bs => a == b && comecaCom as bs

/-- `pat` occurs as a contiguous substring of `l` (Python `in` on strings). -/
def contemSub (pat : List Char) : List Char → Bool
  | [] => comecaCom pat []
  | x :: resto => comecaCom pat (x :: resto) || contemSub pat resto

/-- Line 352: `'picture' in tipo_item or 'image' in tipo_item or
'figure' in tipo_item` with `tipo_item = type(item).__name__.lower()`. -/
def ehTipoImagem (it : ItemConversao) : Bool :=
  let t := it.nomeTipo.map Char.toLower
  contemSub ("picture".toList) t || contemSub ("image".toList) t ||
    contemSub ("figure".toList) t

/-- `item.text if hasattr(item, 'text') and item.text else ""`
(truthiness: an absent attribute and an empty string both give `""`). -/
def textoDoItem (it : ItemConversao) : List Char :=
  match it.texto with
  | some t => t
  | none => []

/-- Content of a non-picture item (lines 355-365). -/
def conteudoSemImagem (it : ItemConversao) : List Char :=
  match it.exportMd with
  | .ok s => s
  | .tipoErroDepoisOk s => s
  | .tipoErroDepoisFalha => textoDoItem it
  | .semAtributo => textoDoItem it

/-- Content of an item with the counter threaded (lines 350-365): a
picture-kind item increments the counter and synthesizes its tag. -/
def conteudoDoItem (c : Nat) (it : ItemConversao) : Nat × List Char :=
  if ehTipoImagem it then (c + 1, etiquetaImagem (c + 1))
  else (c, conteudoSemImagem it)

/-- `paginas_conteudo[num_pagina].append(conteudo)` on the insertion-ordered
dict, modelled as an association list. -/
def insereConteudo (grupos : List (Nat × List (List Char))) (p : Nat)
    (s : List Char) : List (Nat × List (List Char)) :=
  match grupos with
  | [] => [(p, [s])]
  | (q, ss) :: resto =>
    if q = p then (q, ss ++ [s]) :: resto
    else (q, ss) :: insereConteudo resto p s

/-- The grouping loop (lines 336-370): items in stream order, content
computed with the threaded counter, empty content skipped. -/
def agrupaAux (c : Nat) (grupos : List (Nat × List (List Char))) :
    List ItemConversao → Nat × List (Nat × List (List Char))
  | [] => (c, grupos)
  | it :: resto =>
    let r := conteudoDoItem c it
    if r.2.isEmpty then agrupaAux r.1 grupos resto
    else agrupaAux r.1 (insereConteudo grupos (paginaDoItem it) r.2) resto

/-- `paginas_conteudo` after the loop, together with the counter. -/
def agrupaPaginas (c : Nat) (itens : List ItemConversao) :
    Nat × List (Nat × List (List Char)) :=
  agrupaAux c [] itens

/-- `paginas_conteudo[p]` (the page's content list; `[]` if absent). -/
def buscaConteudos : List (Nat × List (List Char)) → Nat → List (List Char)
  | [], _ => []
  | (q, ss) :: resto, p => if q = p then ss else buscaConteudos resto p

/-- `sorted(paginas_conteudo.keys())`. -/
def chavesOrdenadas (grupos : List (Nat × List (List Char))) : List Nat :=
  List.insertionSort (· ≤ ·) (grupos.map Prod.fst)

/-- The `'\n\n'` joiner. -/
def doisNl : List Char := [nl, nl]

/-- The page-emission loop (lines 376-382): for each page number in ascending
order, emit `\n<PAGINA:NNN>\n\n`, the page's contents joined with a blank
line and passed through `_substituir_imagens_markdown`, then `\n`. -/
def rendePaginas (grupos : List (Nat × List (List Char))) :
    Nat → List Nat → Nat × List Char
  | c, [] => (c, [])
  | c, p :: ps =>
    let conteudo := List.intercalate doisNl (buscaConteudos grupos p)
    let r := substituirImagens c conteudo
    let resto := rendePaginas grupos r.1 ps
    (resto.1, (nl :: etiquetaPagina p) ++ doisNl ++ r.2 ++ [nl] ++ resto.2)

/-- Lines 372-387: the assembled markdown before the final cleanup, together
with the final image counter.  `exportCompleto` is
`documento.export_to_markdown()`, used only by the fallback branch. -/
def montarMarkdown (c : Nat) (exportCompleto : List Char)
    (itens : List ItemConversao) : Nat × List Char :=
  let r := agrupaPaginas c itens
  if r.2.isEmpty then
    substituirImagens r.1 (etiquetaPagina 1 ++ doisNl ++ exportCompleto)
  else
    rendePaginas r.2 r.1 (chavesOrdenadas r.2)

/-- Lines 372-391: the final markdown of one extraction job (counter starts
at 0 per `ExtrairPdf` instance; `limpar_texto` is the last step). -/
def markdownFinal (exportCompleto : List Char)
    (itens : List ItemConversao) : List Char :=
  limpar_texto (montarMarkdown 0 exportCompleto itens).2

/-- Reference stream for order statements: the non-empty contents attributed
to page `p`, in the order the items are encountered, with the counter
threaded exactly as in the grouping loop. -/
def conteudosNaPagina (c : Nat) (p : Nat) : List ItemConversao → List (List Char)
  | [] => []
  | it :: resto =>
    let r := conteudoDoItem c it
    (if paginaDoItem it = p ∧ ¬r.2.isEmpty then [r.2] else []) ++
      conteudosNaPagina r.1 p resto

/-! ### The per-file job boundary (`ExtrairPdf.extrair`, lines 283-417)
and the batch loop (`ProcessarPasta.processar`, lines 568-680)

`extrair` returns a boolean; every failure path (missing file, failed
dependency check, any exception from the converter or from writing) is a
`False` return, never a raised exception.  The environment of one job is the
data the code reads from the outside world. -/

/-- Environment of one `ExtrairPdf.extrair` call. -/
structure AmbienteJob where
  /-- `self.arquivo_pdf.exists()`. -/
  arquivoExiste : Bool
  /-- `DOCLING_DISPONIVEL`. -/
  doclingDisponivel : Bool
  /-- `deps['libgl']` truthiness. -/
  libgl : Bool
  /-- `deps['tesseract']` truthiness. -/
  tesseract : Bool
  /-- `self.ignorar_dependencias`. -/
  ignorarDependencias : Bool
  /-- The converter call: an exception message, or the document as its
  whole-document markdown export plus its item stream. -/
  conversao : Except (List Char) (List Char × List ItemConversao)
  /-- Whether writing the output file succeeds (an `IOError` there is caught
  by the same job-level handler). -/
  gravacaoOk : Bool

/-- `ExtrairPdf._verificar_dependencias` (lines 226-259): `False` if docling
is missing, or if an optional dependency is missing while
`ignorar_dependencias` is off. -/
def verificarDependencias (env : AmbienteJob) : Bool :=
  env.doclingDisponivel && (env.libgl || env.ignorarDependencias) &&
    (env.tesseract || env.ignorarDependencias)

/-- `ExtrairPdf.extrair` as a boolean outcome (lines 283-417). -/
def extrairJob (env : AmbienteJob) : Bool :=
  if !env.arquivoExiste then false
  else if !verificarDependencias env then false
  else
    match env.conversao with
    | .error _ => false
    | .ok _ => env.gravacaoOk

/-- Outcome of one per-file attempt seen from the batch loop. -/
inductive ResultadoJob where
  /-- `extrator.extrair()` returned `True`. -/
  | sucesso
  /-- `extrator.extrair()` returned `False`. -/
  | falha
  /-- An exception escaped into the batch-level `except` handler. -/
  | excecao
deriving DecidableEq

/-- One discovered file as the batch loop sees it. -/
structure ArquivoLote where
  /-- `arquivo_md.exists()` at the moment the file is considered. -/
  saidaExiste : Bool
  /-- What the per-file attempt would produce. -/
  resultado : ResultadoJob
deriving DecidableEq

/-- The statistics accumulator of `ProcessarPasta` (lines 513-516). -/
structure Estatisticas where
  processados : Nat
  sucesso : Nat
  falha : Nat
  ignorados : Nat
deriving DecidableEq

/-- The zero statistics of `ProcessarPasta.__init__`. -/
def estatZero : Estatisticas := ⟨0, 0, 0, 0⟩

/-- Component-wise sum of statistics. -/
def somaEstat (a b : Estatisticas) : Estatisticas :=
  ⟨a.processados + b.processados, a.sucesso + b.sucesso,
   a.falha + b.falha, a.ignorados + b.ignorados⟩

/-- Component-wise order on statistics. -/
def estatLE (a b : Estatisticas) : Prop :=
  a.processados ≤ b.processados ∧ a.sucesso ≤ b.sucesso ∧
    a.falha ≤ b.falha ∧ a.ignorados ≤ b.ignorados

/-- One iteration of the batch loop (lines 626-667): returns the updated
statistics and whether the per-file job was invoked. -/
def passoLote (sobrescrever : Bool) (s : Estatisticas) (a : ArquivoLote) :
    Estatisticas × Bool :=
  if a.saidaExiste && !sobrescrever then
    ({ s with ignorados := s.ignorados + 1 }, false)
  else
    match a.resultado with
    | .sucesso =>
      ({ s with processados := s.processados + 1, sucesso := s.sucesso + 1 }, true)
    | .falha =>
      ({ s with processados := s.processados + 1, falha := s.falha + 1 }, true)
    | .excecao =>
      ({ s with processados := s.processados + 1, falha := s.falha + 1 }, true)

/-- The batch loop over the discovered files, accumulating the statistics and
the list of files for which the per-file job was invoked. -/
def loteAux (sobrescrever : Bool) (s : Estatisticas)
    (invocados : List ArquivoLote) :
    List ArquivoLote → Estatisticas × List ArquivoLote
  | [] => (s, invocados)
  | a :: resto =>
    let r := passoLote sobrescrever s a
    loteAux sobrescrever r.1 (if r.2 then invocados ++ [a] else invocados) resto

/-- Configuration of one `ProcessarPasta.processar` run. -/
structure ConfigLote where
  /-- `self.sobrescrever`. -/
  sobrescrever : Bool
  /-- `self.ignorar_dependencias`. -/
  ignorarDependencias : Bool
  /-- `deps['libgl']` truthiness. -/
  libgl : Bool
  /-- `deps['tesseract']` truthiness. -/
  tesseract : Bool
deriving DecidableEq

/-- Lines 595-598: the run halts with zero statistics before processing any
file when strict dependency mode is on and an optional dependency is missing. -/
def abortaPorDependencias (cfg : ConfigLote) : Bool :=
  !cfg.ignorarDependencias && (!cfg.libgl || !cfg.tesseract)

/-- `ProcessarPasta.processar` (lines 568-680) over the discovered files. -/
def processarLote (cfg : ConfigLote) (arquivos : List ArquivoLote) :
    Estatisticas × List ArquivoLote :=
  if abortaPorDependencias cfg then (estatZero, [])
  else loteAux cfg.sobrescrever estatZero [] arquivos

/-- The statistics of a batch loop started from zero. -/
def estatisticasLote (sobrescrever : Bool) (arquivos : List ArquivoLote) :
    Estatisticas :=
  (loteAux sobrescrever estatZero [] arquivos).1

/-! ### File discovery, `ListarArquivosPdf.listar` (lines 420-460)

The file system is passed in as the list of files the glob calls would
enumerate, each given by its directory components relative to the source
folder and its name.  `rglob('*.pdf')`/`rglob('*.PDF')` on a case-sensitive
file system match exactly the lower-case and upper-case extension; the
results are concatenated, deduplicated by lower-cased full path (first
occurrence kept) and sorted (modelled as lexicographic order on the path
string). -/

/-- One file visible under the source folder. -/
structure EntradaFs where
  /-- Directory components relative to the source folder. -/
  dirs : List (List Char)
  /-- File name. -/
  nome : List Char
deriving DecidableEq

/-- The full relative path string of an entry. -/
def caminhoDe (e : EntradaFs) : List Char :=
  List.intercalate ['/'] (e.dirs ++ [e.nome])

/-- `str(arq).lower()`, the deduplication key (line 455). -/
def caminhoNormalizado (e : EntradaFs) : List Char :=
  (caminhoDe e).map Char.toLower

/-- `sufixo` is a suffix of `l` (extension test of the glob pattern). -/
def terminaCom (sufixo l : List Char) : Bool := List.isSuffixOf sufixo l

/-- An entry is in scope: always when `subpastas` (rglob), else only at the
top level (glob). -/
def noEscopo (subpastas : Bool) (e : EntradaFs) : Bool :=
  subpastas || e.dirs.isEmpty

/-- `pasta.rglob("*.pdf")` / `pasta.glob("*.pdf")` (case-sensitive). -/
def globPdfMinusculo (subpastas : Bool) (fs : List EntradaFs) : List EntradaFs :=
  fs.filter (fun e => noEscopo subpastas e && terminaCom (".pdf".toList) e.nome)

/-- `pasta.rglob("*.PDF")` / `pasta.glob("*.PDF")` (case-sensitive). -/
def globPdfMaiusculo (subpastas : Bool) (fs : List EntradaFs) : List EntradaFs :=
  fs.filter (fun e => noEscopo subpastas e && terminaCom (".PDF".toList) e.nome)

/-- The deduplication loop (lines 452-458): keep the first entry for each
lower-cased path. -/
def removeDuplicados (vistos : List (List Char)) :
    List EntradaFs → List EntradaFs
  | [] => []
  | e :: resto =>
    let k := caminhoNormalizado e
    if k ∈ vistos then removeDuplicados vistos resto
    else e :: removeDuplicados (k :: vistos) resto

/-- Path order used by `sorted(arquivos_unicos)`: lexicographic on the path
string. -/
def RelCaminho (a b : EntradaFs) : Prop := caminhoDe a ≤ caminhoDe b

instance : DecidableRel RelCaminho := fun a b =>
  inferInstanceAs (Decidable (caminhoDe a ≤ caminhoDe b))

instance : IsTotal EntradaFs RelCaminho :=
  ⟨fun a b => le_total (caminhoDe a) (caminhoDe b)⟩

instance : IsTrans EntradaFs RelCaminho :=
  ⟨fun _ _ _ h1 h2 => le_trans h1 h2⟩

/-- `ListarArquivosPdf.listar` (lines 424-460): glob both extensions,
deduplicate by lower-cased path, sort. -/
def listarPdfs (fs : List EntradaFs) (subpastas : Bool) : List EntradaFs :=
  List.insertionSort RelCaminho
    (removeDuplicados []
      (globPdfMinusculo subpastas fs ++ globPdfMaiusculo subpastas fs))

/-! ## Generic lemmas about the shape predicates -/

theorem temPar_cons (f : Char → List Char → Bool) (c : Char) (l : List Char) :
    temPar f (c :: l) = (f c l || temPar f l) := rfl

theorem temPar_cauda {f : Char → List Char → Bool} {c : Char} {l : List Char}
    (h : temPar f (c :: l) = false) : temPar f l = false := by
  rw [temPar_cons] at h
  exact (Bool.or_eq_false_iff.mp h).2

theorem temPar_local {f : Char → List Char → Bool} {c : Char} {l : List Char}
    (h : temPar f (c :: l) = false) : f c l = false := by
  rw [temPar_cons] at h
  exact (Bool.or_eq_false_iff.mp h).1

theorem temPar_sufixo {f : Char → List Char → Bool} :
    ∀ (u : List Char) {v : List Char}, temPar f (u ++ v) = false →
      temPar f v = false
  | [], _, h => h
  | _ :: u, _, h => temPar_sufixo u (temPar_cauda h)

/-- The local tests used here are stable under extending the remaining text. -/
def TesteLocal (f : Char → List Char → Bool) : Prop :=
  ∀ (c : Char) (u v : List Char), f c u = true → f c (u ++ v) = true

theorem temPar_prefixo {f : Char → List Char → Bool} (hf : TesteLocal f) :
    ∀ (u : List Char) {v : List Char}, temPar f (u ++ v) = false →
      temPar f u = false
  | [], _, _ => rfl
  | c :: u, v, h => by
    rw [List.cons_append, temPar_cons] at h
    obtain ⟨h1, h2⟩ := Bool.or_eq_false_iff.mp h
    rw [temPar_cons, Bool.or_eq_false_iff]
    refine ⟨?_, temPar_prefixo hf u h2⟩
    cases hfc : f c u with
    | false => rfl
    | true => rw [hf c u v hfc] at h1; exact h1

theorem testeLocal_tab : TesteLocal (fun c _ => c == tabCh) :=
  fun _ _ _ h => h

theorem testeLocal_horiz :
    TesteLocal (fun c resto => ehHoriz c && horizCabeca resto) := by
  intro c u v h
  cases u with
  | nil => simp [horizCabeca] at h
  | cons d u' => simpa [horizCabeca] using h

theorem testeLocal_nl :
    TesteLocal (fun c resto => c == nl && duasNlCabeca resto) := by
  intro c u v h
  match u with
  | [] => simp [duasNlCabeca] at h
  | [a] => simp [duasNlCabeca] at h
  | a :: b :: u' => simpa [duasNlCabeca] using h

theorem testeLocal_pont :
    TesteLocal (fun c resto => ehPontuacao c && cabecaEh c resto) := by
  intro c u v h
  cases u with
  | nil => simp [cabecaEh] at h
  | cons d u' => simpa [cabecaEh] using h

theorem temPar_dropWhile {f : Char → List Char → Bool} (p : Char → Bool)
    {l : List Char} (h : temPar f l = false) :
    temPar f (l.dropWhile p) = false := by
  obtain ⟨u, hu⟩ := List.dropWhile_suffix (l := l) p
  exact temPar_sufixo u (by rw [hu]; exact h)

/-- `tiraPontas l` is a prefix of `l` with its leading whitespace dropped. -/
theorem tiraPontas_prefixo (l : List Char) :
    ∃ t, tiraPontas l ++ t = l.dropWhile ehEspacoPy := by
  obtain ⟨t, ht⟩ :=
    List.dropWhile_suffix (l := (l.dropWhile ehEspacoPy).reverse) ehEspacoPy
  refine ⟨t.reverse, ?_⟩
  have h2 := congrArg List.reverse ht
  simpa [tiraPontas, List.reverse_append] using h2

theorem temPar_tiraPontas {f : Char → List Char → Bool} (hf : TesteLocal f)
    {l : List Char} (h : temPar f l = false) :
    temPar f (tiraPontas l) = false := by
  obtain ⟨t, ht⟩ := tiraPontas_prefixo l
  have h2 : temPar f (l.dropWhile ehEspacoPy) = false := temPar_dropWhile _ h
  rw [← ht] at h2
  exact temPar_prefixo hf _ h2

/-! ## Equation lemmas for the shape predicates -/

theorem temTab_cons (c : Char) (l : List Char) :
    temTab (c :: l) = ((c == tabCh) || temTab l) := rfl

theorem temDoisHoriz_cons (c : Char) (l : List Char) :
    temDoisHoriz (c :: l) = ((ehHoriz c && horizCabeca l) || temDoisHoriz l) := rfl

theorem temTresNl_cons (c : Char) (l : List Char) :
    temTresNl (c :: l) = (((c == nl) && duasNlCabeca l) || temTresNl l) := rfl

theorem temParPontIgual_cons (c : Char) (l : List Char) :
    temParPontIgual (c :: l)
      = ((ehPontuacao c && cabecaEh c l) || temParPontIgual l) := rfl

theorem horizCabeca_cons (d : Char) (l : List Char) :
    horizCabeca (d :: l) = ehHoriz d := rfl

/-! ## Character-class facts -/

theorem espacoNaoTab : ((' ' == tabCh) : Bool) = false := by decide

theorem espacoHoriz : ehHoriz ' ' = true := by decide

theorem nlNaoHoriz : ehHoriz nl = false := by decide

theorem nlNaoTab : ((nl == tabCh) : Bool) = false := by decide

theorem nlNaoPont : ehPontuacao nl = false := by decide

theorem naoHoriz_naoTab {c : Char} (h : ehHoriz c = false) :
    (c == tabCh) = false := by
  have h2 : (c == ' ' || c == tabCh) = false := h
  exact (Bool.or_eq_false_iff.mp h2).2

theorem horiz_naoPont {c : Char} (h : ehHoriz c = true) :
    ehPontuacao c = false := by
  have h2 : (c == ' ' || c == tabCh) = true := h
  rcases Bool.or_eq_true_iff.mp h2 with h3 | h3 <;>
    rw [show c = _ from beq_iff_eq.mp h3] <;> decide

theorem horiz_naoNl {c : Char} (h : ehHoriz c = true) : ¬c = nl := by
  have h2 : (c == ' ' || c == tabCh) = true := h
  rcases Bool.or_eq_true_iff.mp h2 with h3 | h3 <;>
    rw [show c = _ from beq_iff_eq.mp h3] <;> decide

/-! ## Stage 1 (`[ \t]+` → single space): production and identity -/

theorem colapsaHoriz_prod (l : List Char) :
    temTab (colapsaHorizAux false l) = false ∧
    temTab (colapsaHorizAux true l) = false ∧
    temDoisHoriz (colapsaHorizAux false l) = false ∧
    temDoisHoriz (colapsaHorizAux true l) = false ∧
    horizCabeca (colapsaHorizAux true l) = false := by
  induction l with
  | nil => exact ⟨rfl, rfl, rfl, rfl, rfl⟩
  | cons c resto ih =>
    obtain ⟨ih1, ih2, ih3, ih4, ih5⟩ := ih
    by_cases hc : ehHoriz c = true
    · have e1 : colapsaHorizAux false (c :: resto)
          = ' ' :: colapsaHorizAux true resto := by
        simp [colapsaHorizAux, hc]
      have e2 : colapsaHorizAux true (c :: resto)
          = colapsaHorizAux true resto := by
        simp [colapsaHorizAux, hc]
      rw [e1, e2]
      refine ⟨?_, ih2, ?_, ih4, ih5⟩
      · rw [temTab_cons, ih2, espacoNaoTab]; rfl
      · rw [temDoisHoriz_cons, ih4]
        cases hm : colapsaHorizAux true resto with
        | nil => rfl
        | cons d m =>
          rw [horizCabeca_cons]
          rw [hm, horizCabeca_cons] at ih5
          rw [ih5]; rfl
    · have hcf : ehHoriz c = false := by simpa using hc
      have hct : (c == tabCh) = false := naoHoriz_naoTab hcf
      have e1 : colapsaHorizAux false (c :: resto)
          = c :: colapsaHorizAux false resto := by
        simp [colapsaHorizAux, hcf]
      have e2 : colapsaHorizAux true (c :: resto)
          = c :: colapsaHorizAux false resto := by
        simp [colapsaHorizAux, hcf]
      rw [e1, e2]
      refine ⟨?_, ?_, ?_, ?_, ?_⟩
      · rw [temTab_cons, ih1, hct]; rfl
      · rw [temTab_cons, ih1, hct]; rfl
      · rw [temDoisHoriz_cons, ih3, hcf]; rfl
      · rw [temDoisHoriz_cons, ih3, hcf]; rfl
      · rw [horizCabeca_cons]; exact hcf

theorem colapsaHoriz_id (l : List Char) (ht : temTab l = false)
    (hd : temDoisHoriz l = false) :
    colapsaHorizAux false l = l ∧
    (horizCabeca l = false → colapsaHorizAux true l = l) := by
  induction l with
  | nil => exact ⟨rfl, fun _ => rfl⟩
  | cons c resto ih =>
    obtain ⟨ih1, ih2⟩ := ih (temPar_cauda ht) (temPar_cauda hd)
    by_cases hc : ehHoriz c = true
    · have hcsp : c = ' ' := by
        have h2 : (c == tabCh) = false := temPar_local ht
        have h3 : (c == ' ' || c == tabCh) = true := hc
        rw [h2] at h3
        simpa using h3
      have hcab : horizCabeca resto = false := by
        have h3 : (ehHoriz c && horizCabeca resto) = false := temPar_local hd
        rw [hc] at h3
        simpa using h3
      refine ⟨?_, ?_⟩
      · have e1 : colapsaHorizAux false (c :: resto)
            = ' ' :: colapsaHorizAux true resto := by
          simp [colapsaHorizAux, hc]
        rw [e1, ih2 hcab, hcsp]
      · intro h4
        rw [horizCabeca_cons, hc] at h4
        exact absurd h4 (by simp)
    · have hcf : ehHoriz c = false := by simpa using hc
      have e1 : colapsaHorizAux false (c :: resto)
          = c :: colapsaHorizAux false resto := by
        simp [colapsaHorizAux, hcf]
      have e2 : colapsaHorizAux true (c :: resto)
          = c :: colapsaHorizAux false resto := by
        simp [colapsaHorizAux, hcf]
      exact ⟨by rw [e1, ih1], fun _ => by rw [e2, ih1]⟩

/-! ## Stage 2 (`\n{3,}` → two newlines): production, identity, preservation -/

theorem emiteNl_peq (k : Nat) (hk : k ≤ 2) : emiteNl k = List.replicate k nl := by
  unfold emiteNl
  rw [if_neg (by omega)]

theorem emiteNl_cons (k : Nat) (hk : 1 ≤ k) :
    ∃ j, emiteNl k = nl :: List.replicate j nl := by
  unfold emiteNl
  by_cases h3 : 3 ≤ k
  · exact ⟨1, by rw [if_pos h3]; rfl⟩
  · refine ⟨k - 1, ?_⟩
    rw [if_neg h3]
    obtain ⟨k', rfl⟩ : ∃ k', k = k' + 1 := ⟨k - 1, by omega⟩
    simp [List.replicate_succ]

theorem temTresNl_replicate3 (k : Nat) (l : List Char) (hk : 3 ≤ k) :
    temTresNl (List.replicate k nl ++ l) = true := by
  obtain ⟨k', rfl⟩ : ∃ k', k = k' + 3 := ⟨k - 3, by omega⟩
  have e1 : List.replicate (k' + 3) nl ++ l
      = nl :: nl :: nl :: (List.replicate k' nl ++ l) := rfl
  rw [e1, temTresNl_cons]
  have h2 : duasNlCabeca (nl :: nl :: (List.replicate k' nl ++ l)) = true := by
    show (nl == nl && nl == nl) = true
    simp
  rw [h2]
  simp

theorem temTresNl_limita (k : Nat) (l : List Char)
    (h : temTresNl (List.replicate k nl ++ l) = false) : k ≤ 2 := by
  by_contra hk
  rw [temTresNl_replicate3 k l (by omega)] at h
  exact absurd h (by simp)

theorem colapsaNl_id : ∀ (l : List Char) (k : Nat),
    temTresNl (List.replicate k nl ++ l) = false →
    colapsaNlAux k l = List.replicate k nl ++ l := by
  intro l
  induction l with
  | nil =>
    intro k h
    have hk := temTresNl_limita k [] h
    show emiteNl k = List.replicate k nl ++ []
    rw [emiteNl_peq k hk, List.append_nil]
  | cons c resto ih =>
    intro k h
    by_cases hc : c = nl
    · subst hc
      have hrw : List.replicate k nl ++ nl :: resto
          = List.replicate (k + 1) nl ++ resto := by
        rw [List.replicate_succ']
        simp
      rw [hrw] at h ⊢
      have e1 : colapsaNlAux k (nl :: resto) = colapsaNlAux (k + 1) resto := by
        simp [colapsaNlAux]
      rw [e1]
      exact ih (k + 1) h
    · have hk := temTresNl_limita k (c :: resto) h
      have h2 : temTresNl resto = false := by
        have hrw : List.replicate k nl ++ c :: resto
            = (List.replicate k nl ++ [c]) ++ resto := by simp
        rw [hrw] at h
        exact temPar_sufixo _ h
      have e1 : colapsaNlAux k (c :: resto)
          = emiteNl k ++ c :: colapsaNlAux 0 resto := by
        simp [colapsaNlAux, hc]
      rw [e1, emiteNl_peq k hk, ih 0 (by simpa using h2)]
      simp

theorem duasNlCabeca_naoNl {c : Char} (hc : (c == nl) = false) (m : List Char) :
    duasNlCabeca (c :: m) = false := by
  cases m with
  | nil => rfl
  | cons x r =>
    show (c == nl && x == nl) = false
    rw [hc]
    rfl

theorem duasNlCabeca_segundo {c : Char} (hc : (c == nl) = false) (m : List Char) :
    duasNlCabeca (nl :: c :: m) = false := by
  show (nl == nl && c == nl) = false
  rw [hc]
  simp

theorem temTresNl_emiteNl (k : Nat) : temTresNl (emiteNl k) = false := by
  unfold emiteNl
  by_cases h3 : 3 ≤ k
  · rw [if_pos h3]; decide
  · rw [if_neg h3]
    have hk : k ≤ 2 := by omega
    interval_cases k <;> decide

theorem temTresNl_emiteNl_cons (k : Nat) {c : Char} (hc : ¬c = nl)
    (m : List Char) :
    temTresNl (emiteNl k ++ c :: m) = temTresNl m := by
  have hcb : (c == nl) = false := by simpa using hc
  have base : temTresNl (c :: m) = temTresNl m := by
    rw [temTresNl_cons, hcb]
    simp
  have hsplit : emiteNl k = [] ∨ emiteNl k = [nl] ∨ emiteNl k = [nl, nl] := by
    unfold emiteNl
    by_cases h3 : 3 ≤ k
    · rw [if_pos h3]; right; right; rfl
    · rw [if_neg h3]
      have hk : k ≤ 2 := by omega
      interval_cases k
      · left; rfl
      · right; left; rfl
      · right; right; rfl
  rcases hsplit with h | h | h <;> rw [h]
  · simpa using base
  · show temTresNl (nl :: c :: m) = temTresNl m
    rw [temTresNl_cons, duasNlCabeca_naoNl hcb, base]
    simp
  · show temTresNl (nl :: nl :: c :: m) = temTresNl m
    rw [temTresNl_cons, duasNlCabeca_segundo hcb, temTresNl_cons,
      duasNlCabeca_naoNl hcb, base]
    simp

theorem colapsaNl_semTres : ∀ (l : List Char) (k : Nat),
    temTresNl (colapsaNlAux k l) = false := by
  intro l
  induction l with
  | nil => intro k; exact temTresNl_emiteNl k
  | cons c resto ih =>
    intro k
    by_cases hc : c = nl
    · subst hc
      rw [show colapsaNlAux k (nl :: resto) = colapsaNlAux (k + 1) resto from by
        simp [colapsaNlAux]]
      exact ih (k + 1)
    · rw [show colapsaNlAux k (c :: resto)
          = emiteNl k ++ c :: colapsaNlAux 0 resto from by
        simp [colapsaNlAux, hc]]
      rw [temTresNl_emiteNl_cons k hc]
      exact ih 0

theorem temTab_append : ∀ (u v : List Char),
    temTab (u ++ v) = (temTab u || temTab v)
  | [], v => by
    show temTab v = (false || temTab v)
    rw [Bool.false_or]
  | c :: u, v => by
    rw [List.cons_append, temTab_cons, temTab_cons, temTab_append u v,
      Bool.or_assoc]

theorem temTab_replicate_nl : ∀ j, temTab (List.replicate j nl) = false
  | 0 => rfl
  | j + 1 => by
    rw [List.replicate_succ, temTab_cons, temTab_replicate_nl j, nlNaoTab]
    rfl

theorem temTab_emiteNl (k : Nat) : temTab (emiteNl k) = false :=
  temTab_replicate_nl _

theorem colapsaNl_temTab : ∀ (l : List Char) (k : Nat),
    temTab l = false → temTab (colapsaNlAux k l) = false := by
  intro l
  induction l with
  | nil => intro k _; exact temTab_emiteNl k
  | cons c resto ih =>
    intro k h
    by_cases hc : c = nl
    · subst hc
      rw [show colapsaNlAux k (nl :: resto) = colapsaNlAux (k + 1) resto from by
        simp [colapsaNlAux]]
      exact ih (k + 1) (temPar_cauda h)
    · have hct : (c == tabCh) = false := temPar_local h
      rw [show colapsaNlAux k (c :: resto)
          = emiteNl k ++ c :: colapsaNlAux 0 resto from by
        simp [colapsaNlAux, hc]]
      rw [temTab_append, temTab_emiteNl, temTab_cons, hct,
        ih 0 (temPar_cauda h)]
      rfl

theorem temDoisHoriz_replicate_nl : ∀ (j : Nat) (m : List Char),
    temDoisHoriz (List.replicate j nl ++ m) = temDoisHoriz m
  | 0, _ => rfl
  | j + 1, m => by
    rw [List.replicate_succ, List.cons_append, temDoisHoriz_cons, nlNaoHoriz,
      temDoisHoriz_replicate_nl j m]
    simp

theorem colapsaNl_cabecaNaoHoriz : ∀ (l : List Char) (k : Nat), 1 ≤ k →
    horizCabeca (colapsaNlAux k l) = false := by
  intro l
  induction l with
  | nil =>
    intro k hk
    obtain ⟨j, hj⟩ := emiteNl_cons k hk
    show horizCabeca (emiteNl k) = false
    rw [hj, horizCabeca_cons, nlNaoHoriz]
  | cons c resto ih =>
    intro k hk
    by_cases hc : c = nl
    · subst hc
      rw [show colapsaNlAux k (nl :: resto) = colapsaNlAux (k + 1) resto from by
        simp [colapsaNlAux]]
      exact ih (k + 1) (by omega)
    · rw [show colapsaNlAux k (c :: resto)
          = emiteNl k ++ c :: colapsaNlAux 0 resto from by
        simp [colapsaNlAux, hc]]
      obtain ⟨j, hj⟩ := emiteNl_cons k hk
      rw [hj, List.cons_append, horizCabeca_cons, nlNaoHoriz]

theorem colapsaNl_temDoisHoriz : ∀ (l : List Char) (k : Nat),
    temDoisHoriz l = false → temDoisHoriz (colapsaNlAux k l) = false := by
  intro l
  induction l with
  | nil =>
    intro k _
    show temDoisHoriz (List.replicate (if 3 ≤ k then 2 else k) nl) = false
    rw [← List.append_nil (List.replicate (if 3 ≤ k then 2 else k) nl),
      temDoisHoriz_replicate_nl]
    rfl
  | cons c resto ih =>
    intro k h
    by_cases hc : c = nl
    · subst hc
      rw [show colapsaNlAux k (nl :: resto) = colapsaNlAux (k + 1) resto from by
        simp [colapsaNlAux]]
      exact ih (k + 1) (temPar_cauda h)
    · rw [show colapsaNlAux k (c :: resto)
          = emiteNl k ++ c :: colapsaNlAux 0 resto from by
        simp [colapsaNlAux, hc]]
      rw [show emiteNl k = List.replicate (if 3 ≤ k then 2 else k) nl from rfl,
        temDoisHoriz_replicate_nl, temDoisHoriz_cons, ih 0 (temPar_cauda h)]
      by_cases hch : ehHoriz c = true
      · have hcab : horizCabeca (colapsaNlAux 0 resto) = false := by
          cases resto with
          | nil => rfl
          | cons d r2 =>
            by_cases hd : d = nl
            · subst hd
              rw [show colapsaNlAux 0 (nl :: r2) = colapsaNlAux 1 r2 from by
                simp [colapsaNlAux]]
              exact colapsaNl_cabecaNaoHoriz r2 1 (by omega)
            · rw [show colapsaNlAux 0 (d :: r2)
                  = emiteNl 0 ++ d :: colapsaNlAux 0 r2 from by
                simp [colapsaNlAux, hd]]
              have h3 : (ehHoriz c && horizCabeca (d :: r2)) = false :=
                temPar_local h
              rw [hch, horizCabeca_cons] at h3
              show ehHoriz d = false
              simpa using h3
        rw [hcab]
        simp
      · have hcf : ehHoriz c = false := by simpa using hch
        rw [hcf]
        simp

/-! ## Stage 3 (repeated punctuation): production, identity, preservation -/

theorem colapsaPontAux_mantem {ant : Option Char} {c : Char} {resto : List Char}
    (h : ¬(ehPontuacao c = true ∧ ant = some c)) :
    colapsaPontAux ant (c :: resto) = c :: colapsaPontAux (some c) resto := by
  simp only [colapsaPontAux]
  rw [if_neg h]

theorem colapsaPontAux_remove {ant : Option Char} {c : Char} {resto : List Char}
    (h1 : ehPontuacao c = true) (h2 : ant = some c) :
    colapsaPontAux ant (c :: resto) = colapsaPontAux ant resto := by
  simp only [colapsaPontAux]
  rw [if_pos ⟨h1, h2⟩]

theorem colapsaPontAux_naoPont_cons {c d : Char} (hc : ehPontuacao c = false)
    (r : List Char) :
    colapsaPontAux (some c) (d :: r) = d :: colapsaPontAux (some d) r := by
  apply colapsaPontAux_mantem
  rintro ⟨h1, h2⟩
  obtain rfl := Option.some.inj h2
  rw [hc] at h1
  exact absurd h1 (by simp)

theorem colapsaPont_horizCabeca {c : Char} (hc : ehPontuacao c = false)
    (m : List Char) :
    horizCabeca (colapsaPontAux (some c) m) = horizCabeca m := by
  cases m with
  | nil => rfl
  | cons d r =>
    rw [colapsaPontAux_naoPont_cons hc, horizCabeca_cons, horizCabeca_cons]

theorem colapsaPont_duasNl (m : List Char) :
    duasNlCabeca (colapsaPontAux (some nl) m) = duasNlCabeca m := by
  cases m with
  | nil => rfl
  | cons d r =>
    rw [colapsaPontAux_naoPont_cons nlNaoPont]
    by_cases hd : (d == nl) = true
    · obtain rfl : d = nl := beq_iff_eq.mp hd
      cases r with
      | nil => rfl
      | cons x r2 =>
        rw [colapsaPontAux_naoPont_cons nlNaoPont]
        rfl
    · have hdf : (d == nl) = false := by simpa using hd
      rw [duasNlCabeca_naoNl hdf, duasNlCabeca_naoNl hdf]

theorem colapsaPont_cabecaEh {c : Char} (hc : ehPontuacao c = true)
    (m : List Char) :
    cabecaEh c (colapsaPontAux (some c) m) = false := by
  induction m with
  | nil => rfl
  | cons d r ih =>
    by_cases hd : ehPontuacao d = true ∧ (some c : Option Char) = some d
    · rw [colapsaPontAux_remove hd.1 hd.2]
      exact ih
    · rw [colapsaPontAux_mantem hd]
      show (d == c) = false
      by_cases hdc : d = c
      · subst hdc
        exact absurd ⟨hc, rfl⟩ hd
      · simpa using hdc

theorem colapsaPont_semPar : ∀ (l : List Char) (ant : Option Char),
    temParPontIgual (colapsaPontAux ant l) = false := by
  intro l
  induction l with
  | nil => intro _; rfl
  | cons c resto ih =>
    intro ant
    by_cases hd : ehPontuacao c = true ∧ ant = some c
    · rw [colapsaPontAux_remove hd.1 hd.2]
      exact ih ant
    · rw [colapsaPontAux_mantem hd, temParPontIgual_cons, ih (some c)]
      by_cases hp : ehPontuacao c = true
      · rw [hp, colapsaPont_cabecaEh hp resto]
        rfl
      · have hpf : ehPontuacao c = false := by simpa using hp
        rw [hpf]
        rfl

theorem colapsaPont_temTab : ∀ (l : List Char) (ant : Option Char),
    temTab l = false → temTab (colapsaPontAux ant l) = false := by
  intro l
  induction l with
  | nil => intro _ _; rfl
  | cons c resto ih =>
    intro ant h
    by_cases hd : ehPontuacao c = true ∧ ant = some c
    · rw [colapsaPontAux_remove hd.1 hd.2]
      exact ih ant (temPar_cauda h)
    · have hct : (c == tabCh) = false := temPar_local h
      rw [colapsaPontAux_mantem hd, temTab_cons, hct,
        ih (some c) (temPar_cauda h)]
      rfl

theorem colapsaPont_temDoisHoriz : ∀ (l : List Char) (ant : Option Char),
    temDoisHoriz l = false → temDoisHoriz (colapsaPontAux ant l) = false := by
  intro l
  induction l with
  | nil => intro _ _; rfl
  | cons c resto ih =>
    intro ant h
    by_cases hd : ehPontuacao c = true ∧ ant = some c
    · rw [colapsaPontAux_remove hd.1 hd.2]
      exact ih ant (temPar_cauda h)
    · rw [colapsaPontAux_mantem hd, temDoisHoriz_cons,
        ih (some c) (temPar_cauda h)]
      by_cases hch : ehHoriz c = true
      · have hcp : ehPontuacao c = false := horiz_naoPont hch
        rw [colapsaPont_horizCabeca hcp resto]
        have h3 : (ehHoriz c && horizCabeca resto) = false := temPar_local h
        rw [h3]
        rfl
      · have hcf : ehHoriz c = false := by simpa using hch
        rw [hcf]
        rfl

theorem colapsaPont_temTresNl : ∀ (l : List Char) (ant : Option Char),
    temTresNl l = false → temTresNl (colapsaPontAux ant l) = false := by
  intro l
  induction l with
  | nil => intro _ _; rfl
  | cons c resto ih =>
    intro ant h
    by_cases hd : ehPontuacao c = true ∧ ant = some c
    · rw [colapsaPontAux_remove hd.1 hd.2]
      exact ih ant (temPar_cauda h)
    · rw [colapsaPontAux_mantem hd, temTresNl_cons,
        ih (some c) (temPar_cauda h)]
      by_cases hcn : c = nl
      · subst hcn
        rw [colapsaPont_duasNl resto]
        have h3 : ((nl == nl) && duasNlCabeca resto) = false := temPar_local h
        rw [h3]
        rfl
      · have hcnf : (c == nl) = false := by simpa using hcn
        rw [hcnf]
        rfl

theorem colapsaPont_id : ∀ (l : List Char) (ant : Option Char),
    temParPontIgual l = false →
    (∀ a, ant = some a → ehPontuacao a = true → cabecaEh a l = false) →
    colapsaPontAux ant l = l := by
  intro l
  induction l with
  | nil => intro _ _ _; rfl
  | cons c resto ih =>
    intro ant h hant
    have hkeep : ¬(ehPontuacao c = true ∧ ant = some c) := by
      rintro ⟨h1, h2⟩
      have h3 := hant c h2 h1
      rw [show cabecaEh c (c :: resto) = (c == c) from rfl] at h3
      simp at h3
    rw [colapsaPontAux_mantem hkeep]
    congr 1
    apply ih (some c) (temPar_cauda h)
    intro a ha hpa
    obtain rfl := Option.some.inj ha
    have h3 : (ehPontuacao c && cabecaEh c resto) = false := temPar_local h
    rw [hpa] at h3
    simpa using h3

/-! ## `tiraPontas` (Python `strip`): idempotence -/

theorem dropWhile_idem (p : Char → Bool) (l : List Char) :
    List.dropWhile p (List.dropWhile p l) = List.dropWhile p l := by
  induction l with
  | nil => rfl
  | cons c r ih =>
    by_cases hc : p c = true
    · simp [List.dropWhile_cons, hc, ih]
    · simp [List.dropWhile_cons, hc]

theorem cabeca_dropWhile (p : Char → Bool) (l : List Char) {d : Char}
    {r : List Char} (h : List.dropWhile p l = d :: r) : p d = false := by
  induction l with
  | nil => simp at h
  | cons c m ih =>
    rw [List.dropWhile_cons] at h
    by_cases hc : p c = true
    · rw [if_pos hc] at h
      exact ih h
    · rw [if_neg hc] at h
      injection h with h1 _
      subst h1
      simpa using hc

theorem tiraPontas_semEspacoInicio (l : List Char) :
    List.dropWhile ehEspacoPy (tiraPontas l) = tiraPontas l := by
  obtain ⟨t, ht⟩ := tiraPontas_prefixo l
  cases hv : tiraPontas l with
  | nil => rfl
  | cons d r =>
    have h2 : List.dropWhile ehEspacoPy l = d :: (r ++ t) := by
      rw [← ht, hv]
      simp
    have hd := cabeca_dropWhile ehEspacoPy l h2
    rw [List.dropWhile_cons, if_neg (by simp [hd])]

theorem tiraPontas_idem (l : List Char) :
    tiraPontas (tiraPontas l) = tiraPontas l := by
  have h1 := tiraPontas_semEspacoInicio l
  show (((tiraPontas l).dropWhile ehEspacoPy).reverse.dropWhile
      ehEspacoPy).reverse = tiraPontas l
  rw [h1]
  have h2 : (tiraPontas l).reverse
      = List.dropWhile ehEspacoPy (l.dropWhile ehEspacoPy).reverse := by
    simp [tiraPontas]
  rw [h2, dropWhile_idem, ← h2]
  simp

/-! ## The full normalizer: invariants and idempotence -/

theorem limpar_texto_invariantes (l : List Char) :
    temTab (limpar_texto l) = false ∧
    temDoisHoriz (limpar_texto l) = false ∧
    temTresNl (limpar_texto l) = false ∧
    temParPontIgual (limpar_texto l) = false := by
  obtain ⟨h1, _, h2, _, _⟩ := colapsaHoriz_prod l
  have h1n : temTab (colapsaNl (colapsaHoriz l)) = false :=
    colapsaNl_temTab _ 0 h1
  have h2n : temDoisHoriz (colapsaNl (colapsaHoriz l)) = false :=
    colapsaNl_temDoisHoriz _ 0 h2
  have h3n : temTresNl (colapsaNl (colapsaHoriz l)) = false :=
    colapsaNl_semTres _ 0
  have h1p : temTab (colapsaPont (colapsaNl (colapsaHoriz l))) = false :=
    colapsaPont_temTab _ none h1n
  have h2p : temDoisHoriz (colapsaPont (colapsaNl (colapsaHoriz l))) = false :=
    colapsaPont_temDoisHoriz _ none h2n
  have h3p : temTresNl (colapsaPont (colapsaNl (colapsaHoriz l))) = false :=
    colapsaPont_temTresNl _ none h3n
  have h4p : temParPontIgual (colapsaPont (colapsaNl (colapsaHoriz l)))
      = false :=
    colapsaPont_semPar _ none
  exact ⟨temPar_tiraPontas testeLocal_tab h1p,
         temPar_tiraPontas testeLocal_horiz h2p,
         temPar_tiraPontas testeLocal_nl h3p,
         temPar_tiraPontas testeLocal_pont h4p⟩

theorem limpar_texto_idem (l : List Char) :
    limpar_texto (limpar_texto l) = limpar_texto l := by
  obtain ⟨h1, h2, h3, h4⟩ := limpar_texto_invariantes l
  have hch : colapsaHoriz (limpar_texto l) = limpar_texto l :=
    (colapsaHoriz_id _ h1 h2).1
  have hcn : colapsaNl (limpar_texto l) = limpar_texto l := by
    have h5 := colapsaNl_id (limpar_texto l) 0 (by simpa using h3)
    simpa [colapsaNl] using h5
  have hcp : colapsaPont (limpar_texto l) = limpar_texto l :=
    colapsaPont_id _ none h4 (fun a ha _ => absurd ha (by simp))
  have hst : tiraPontas (limpar_texto l) = limpar_texto l :=
    tiraPontas_idem (colapsaPont (colapsaNl (colapsaHoriz l)))
  show tiraPontas (colapsaPont (colapsaNl (colapsaHoriz (limpar_texto l))))
      = limpar_texto l
  rw [hch, hcn, hcp, hst]

theorem colapsaHoriz_count_nl : ∀ (b : Bool) (l : List Char),
    (colapsaHorizAux b l).count nl = l.count nl := by
  intro b l
  induction l generalizing b with
  | nil => rfl
  | cons c resto ih =>
    by_cases hc : ehHoriz c = true
    · have hcn : (c == nl) = false := by simpa using horiz_naoNl hc
      cases b with
      | true =>
        rw [show colapsaHorizAux true (c :: resto)
            = colapsaHorizAux true resto from by simp [colapsaHorizAux, hc]]
        rw [ih true, List.count_cons, hcn]
        simp
      | false =>
        rw [show colapsaHorizAux false (c :: resto)
            = ' ' :: colapsaHorizAux true resto from by
          simp [colapsaHorizAux, hc]]
        rw [List.count_cons, List.count_cons, ih true, hcn,
          show ((' ' == nl) : Bool) = false from by decide]
    · have hcf : ehHoriz c = false := by simpa using hc
      rw [show colapsaHorizAux b (c :: resto)
          = c :: colapsaHorizAux false resto from by
        cases b <;> simp [colapsaHorizAux, hcf]]
      rw [List.count_cons, List.count_cons, ih false]

/-- C5: the text normalizer `limpar_texto` is idempotent:
`limpar_texto (limpar_texto x) = limpar_texto x` for every string `x`
(including the empty string).  It is a total pure function by construction
(a Lean function; no exception path exists in the source either). -/
theorem c5_limpar_texto_idempotente : ∀ l : List Char,
    limpar_texto (limpar_texto l) = limpar_texto l :=
  fun l => limpar_texto_idem l

/-- C6: behaviour of `limpar_texto` on every input: the space/tab
substitution preserves newlines (their count is unchanged); newline runs of
at most two are left intact by the newline substitution (texts without a
triple newline are fixed points of that stage); the final result contains no
tab, no two adjacent horizontal spaces, no three consecutive newlines and no
two adjacent identical punctuation characters, and it carries no leading or
trailing whitespace; and the concrete examples: `"Hello!!!   world..."`
normalizes to `"Hello! world."`, and a run of four newlines is cut to
exactly two. -/
theorem c6_limpar_texto_formas : ∀ l : List Char,
    (colapsaHoriz l).count nl = l.count nl ∧
    (temTresNl l = false → colapsaNl l = l) ∧
    temTab (limpar_texto l) = false ∧
    temDoisHoriz (limpar_texto l) = false ∧
    temTresNl (limpar_texto l) = false ∧
    temParPontIgual (limpar_texto l) = false ∧
    tiraPontas (limpar_texto l) = limpar_texto l ∧
    limpar_texto ("Hello!!!   world...".toList) = "Hello! world.".toList ∧
    limpar_texto ("a".toList ++ List.replicate 4 nl ++ "b".toList)
      = "a".toList ++ [nl, nl] ++ "b".toList := by
  intro l
  obtain ⟨h1, h2, h3, h4⟩ := limpar_texto_invariantes l
  refine ⟨colapsaHoriz_count_nl false l, ?_, h1, h2, h3, h4, ?_, ?_, ?_⟩
  · intro ht
    have h5 := colapsaNl_id l 0 (by simpa using ht)
    simpa [colapsaNl] using h5
  · exact tiraPontas_idem (colapsaPont (colapsaNl (colapsaHoriz l)))
  · decide
  · decide

/-- Witness for C6 at a concrete input: `"x"` has no triple newline and the
newline stage leaves it unchanged. -/
theorem c6_limpar_texto_formas_witness :
    temTresNl ("x".toList) = false ∧ colapsaNl ("x".toList) = "x".toList :=
  ⟨by decide, (c6_limpar_texto_formas ("x".toList)).2.1 (by decide)⟩

/-! ## Image tagger: sequential numbering (C3) -/

theorem tagsPatAux_range (m : List Char → Option (List Char)) :
    ∀ (fuel c : Nat) (l : List Char),
      tagsPatAux m fuel c l
        = List.range' (c + 1) (tagsPatAux m fuel c l).length := by
  intro fuel
  induction fuel with
  | zero => intro c l; rfl
  | succ f ih =>
    intro c l
    cases l with
    | nil => rfl
    | cons x resto =>
      cases hm : m (x :: resto) with
      | some resto2 =>
        rw [show tagsPatAux m (f + 1) c (x :: resto)
            = (c + 1) :: tagsPatAux m f (c + 1) resto2 from by
          simp [tagsPatAux, hm]]
        rw [List.length_cons, List.range'_succ]
        congr 1
        exact ih (c + 1) resto2
      | none =>
        rw [show tagsPatAux m (f + 1) c (x :: resto)
            = tagsPatAux m f c resto from by simp [tagsPatAux, hm]]
        exact ih c resto

theorem subPatAux_contador (m : List Char → Option (List Char)) :
    ∀ (fuel c : Nat) (l : List Char),
      (subPatAux m fuel c l).1 = c + (tagsPatAux m fuel c l).length := by
  intro fuel
  induction fuel with
  | zero => intro c l; rfl
  | succ f ih =>
    intro c l
    cases l with
    | nil => rfl
    | cons x resto =>
      cases hm : m (x :: resto) with
      | some resto2 =>
        rw [show (subPatAux m (f + 1) c (x :: resto)).1
            = (subPatAux m f (c + 1) resto2).1 from by simp [subPatAux, hm]]
        rw [show tagsPatAux m (f + 1) c (x :: resto)
            = (c + 1) :: tagsPatAux m f (c + 1) resto2 from by
          simp [tagsPatAux, hm]]
        rw [ih (c + 1) resto2, List.length_cons]
        omega
      | none =>
        rw [show (subPatAux m (f + 1) c (x :: resto)).1
            = (subPatAux m f c resto).1 from by simp [subPatAux, hm]]
        rw [show tagsPatAux m (f + 1) c (x :: resto)
            = tagsPatAux m f c resto from by simp [tagsPatAux, hm]]
        exact ih c resto

theorem etiquetasPadroes_consecutivas :
    ∀ (ms : List (List Char → Option (List Char))) (c : Nat) (l : List Char),
      ∃ k, etiquetasPadroes ms c l = List.range' (c + 1) k ∧
        (aplicaPadroes ms c l).1 = c + k := by
  intro ms
  induction ms with
  | nil => intro c l; exact ⟨0, rfl, rfl⟩
  | cons m ms ih =>
    intro c l
    obtain ⟨k2, ihr, ihc⟩ := ih (subPat m c l).1 (subPat m c l).2
    have ht : tagsPat m c l = List.range' (c + 1) (tagsPat m c l).length :=
      tagsPatAux_range m l.length c l
    have hc : (subPat m c l).1 = c + (tagsPat m c l).length :=
      subPatAux_contador m l.length c l
    refine ⟨(tagsPat m c l).length + k2, ?_, ?_⟩
    · show tagsPat m c l
          ++ etiquetasPadroes ms (subPat m c l).1 (subPat m c l).2
        = List.range' (c + 1) ((tagsPat m c l).length + k2)
      rw [ihr, hc]
      nth_rewrite 1 [ht]
      have ha := List.range'_append (c + 1) (tagsPat m c l).length k2 1
      rw [show (c + 1) + 1 * (tagsPat m c l).length
          = c + (tagsPat m c l).length + 1 from by ring] at ha
      rw [ha, Nat.add_comm k2 (tagsPat m c l).length]
    · show (aplicaPadroes ms (subPat m c l).1 (subPat m c l).2).1 = _
      rw [ihc, hc]
      ring

/-- C3: within one extraction job the image counter is shared by all image
substitutions: the tag numbers emitted by `_substituir_imagens_markdown`
(across all six patterns, in emission order) are exactly the consecutive
integers from `c + 1` up to the final counter value, hence strictly
increasing, never reused and never reset per pattern (per-page sharing is
the same counter threaded through `rendePaginas`, see C1/C4); and on the
concrete input `"See ![cat](x.png) here"` with a fresh counter the result is
`"See <IMAGEM:001> here"` with counter 1. -/
theorem c3_etiquetas_sequenciais : ∀ (c : Nat) (l : List Char),
    etiquetasEmitidas c l
      = List.range' (c + 1) ((substituirImagens c l).1 - c) ∧
    (substituirImagens c l).1 = c + (etiquetasEmitidas c l).length ∧
    List.Pairwise (· < ·) (etiquetasEmitidas c l) ∧
    substituirImagens 0 ("See ![cat](x.png) here".toList)
      = (1, "See <IMAGEM:001> here".toList) := by
  intro c l
  obtain ⟨k, h1, h2⟩ := etiquetasPadroes_consecutivas padroesImagem c l
  have h1e : etiquetasEmitidas c l = List.range' (c + 1) k := h1
  have h2e : (substituirImagens c l).1 = c + k := h2
  refine ⟨?_, ?_, ?_, ?_⟩
  · rw [show (substituirImagens c l).1 - c = k from by omega]
    exact h1e
  · rw [h2e, h1e, List.length_range']
  · rw [h1e]
    exact List.pairwise_lt_range' (c + 1) k 1 (by norm_num)
  · decide

/-! ## Image tagger: a synthesized tag is never matched again (C4) -/

/-- Characters that can start no image pattern. -/
def charSeguro (x : Char) : Bool := !(x == '!') && !(x == '<') && !(x == '[')

theorem matchMdImg_naoExclamacao {x : Char} (hx : ¬x = '!') (l : List Char) :
    matchMdImg (x :: l) = none := by
  cases l with
  | nil => rfl
  | cons y resto =>
    simp only [matchMdImg]
    rw [if_neg (fun h => hx h.1)]

theorem matchImgHtml_naoMenor {x : Char} (hx : ¬x = '<') (l : List Char) :
    matchImgHtml (x :: l) = none := by
  match l with
  | [] => rfl
  | [_] => rfl
  | [_, _] => rfl
  | a :: b :: d :: resto =>
    simp only [matchImgHtml]
    rw [if_neg (fun h => hx h.1)]

theorem matchColchete_naoColchete (palavra : List Char) {x : Char}
    (hx : ¬x = '[') (l : List Char) :
    matchColchete palavra (x :: l) = none := by
  simp only [matchColchete]
  rw [if_neg hx]

theorem charSeguro_elim {x : Char} (hx : charSeguro x = true) :
    ¬x = '!' ∧ ¬x = '<' ∧ ¬x = '[' := by
  refine ⟨fun h => ?_, fun h => ?_, fun h => ?_⟩ <;>
    (subst h; revert hx; decide)

theorem padroes_naoCasa_seguro {m : List Char → Option (List Char)}
    (hm : m ∈ padroesImagem) (x : Char) (l : List Char)
    (hx : charSeguro x = true) : m (x :: l) = none := by
  obtain ⟨hx1, hx2, hx3⟩ := charSeguro_elim hx
  fin_cases hm
  · exact matchMdImg_naoExclamacao hx1 l
  · exact matchImgHtml_naoMenor hx2 l
  · exact matchColchete_naoColchete _ hx3 l
  · exact matchColchete_naoColchete _ hx3 l
  · exact matchColchete_naoColchete _ hx3 l
  · exact matchColchete_naoColchete _ hx3 l

theorem subPatAux_seguro {m : List Char → Option (List Char)}
    (hm : ∀ (x : Char) (r : List Char), charSeguro x = true → m (x :: r) = none) :
    ∀ (fuel c : Nat) (l : List Char), l.all charSeguro = true →
      subPatAux m fuel c l = (c, l) := by
  intro fuel
  induction fuel with
  | zero => intro c l _; rfl
  | succ f ih =>
    intro c l hl
    cases l with
    | nil => rfl
    | cons x resto =>
      rw [List.all_cons, Bool.and_eq_true] at hl
      have e1 : subPatAux m (f + 1) c (x :: resto)
          = ((subPatAux m f c resto).1, x :: (subPatAux m f c resto).2) := by
        simp [subPatAux, hm x resto hl.1]
      rw [e1, ih c resto hl.2]

theorem subPat_cabecaSegura {m : List Char → Option (List Char)}
    (hmSafe : ∀ (y : Char) (r : List Char), charSeguro y = true →
      m (y :: r) = none)
    {x : Char} {resto : List Char} (h0 : m (x :: resto) = none)
    (hresto : resto.all charSeguro = true) (c : Nat) :
    subPat m c (x :: resto) = (c, x :: resto) := by
  show subPatAux m (x :: resto).length c (x :: resto) = _
  rw [List.length_cons]
  have e1 : subPatAux m (resto.length + 1) c (x :: resto)
      = ((subPatAux m resto.length c resto).1,
         x :: (subPatAux m resto.length c resto).2) := by
    simp [subPatAux, h0]
  rw [e1, subPatAux_seguro hmSafe resto.length c resto hresto]

theorem digitoCh_seguro (d : Nat) (hd : d < 10) :
    charSeguro (digitoCh d) = true := by
  interval_cases d <;> decide

theorem decimaisAux_seguro : ∀ (fuel n : Nat),
    (decimaisAux fuel n).all charSeguro = true
  | 0, _ => rfl
  | fuel + 1, n => by
    by_cases h : n < 10
    · rw [show decimaisAux (fuel + 1) n = [digitoCh n] from by
        simp [decimaisAux, h]]
      simp [digitoCh_seguro n h]
    · rw [show decimaisAux (fuel + 1) n
          = decimaisAux fuel (n / 10) ++ [digitoCh (n % 10)] from by
        simp [decimaisAux, h]]
      rw [List.all_append, decimaisAux_seguro fuel (n / 10)]
      simp [digitoCh_seguro (n % 10) (Nat.mod_lt n (by omega))]

theorem replicate_zero_seguro (j : Nat) :
    (List.replicate j '0').all charSeguro = true := by
  induction j with
  | zero => rfl
  | succ i ih =>
    rw [List.replicate_succ, List.all_cons, ih]
    rfl

theorem fmt3_seguro (n : Nat) : (fmt3 n).all charSeguro = true := by
  unfold fmt3 List.leftpad
  have hd : (decimais n).all charSeguro = true := decimaisAux_seguro (n + 1) n
  rw [List.all_append, replicate_zero_seguro, hd]
  rfl

theorem etiquetaImagem_cauda_segura (n : Nat) :
    ('I' :: 'M' :: 'A' :: 'G' :: 'E' :: 'M' :: ':' ::
      (fmt3 n ++ ['>'])).all charSeguro = true := by
  rw [List.all_cons, List.all_cons, List.all_cons, List.all_cons, List.all_cons,
    List.all_cons, List.all_cons, List.all_append, fmt3_seguro n]
  decide

theorem cabeca_etiqueta_nenhum {m : List Char → Option (List Char)}
    (hm : m ∈ padroesImagem) (n : Nat) : m (etiquetaImagem n) = none := by
  fin_cases hm
  · exact matchMdImg_naoExclamacao (by decide) _
  · show matchImgHtml ('<' :: 'I' :: 'M' :: 'A' :: ('G' :: 'E' :: 'M' :: ':' ::
      (fmt3 n ++ ['>']))) = none
    simp only [matchImgHtml]
    rw [if_neg (by decide)]
  · exact matchColchete_naoColchete _ (by decide) _
  · exact matchColchete_naoColchete _ (by decide) _
  · exact matchColchete_naoColchete _ (by decide) _
  · exact matchColchete_naoColchete _ (by decide) _

theorem subPat_etiqueta {m : List Char → Option (List Char)}
    (hm : m ∈ padroesImagem) (c n : Nat) :
    subPat m c (etiquetaImagem n) = (c, etiquetaImagem n) :=
  subPat_cabecaSegura (padroes_naoCasa_seguro hm)
    (cabeca_etiqueta_nenhum hm n) (etiquetaImagem_cauda_segura n) c

theorem aplicaPadroes_etiqueta :
    ∀ (ms : List (List Char → Option (List Char))),
      (∀ m ∈ ms, m ∈ padroesImagem) → ∀ (c n : Nat),
      aplicaPadroes ms c (etiquetaImagem n) = (c, etiquetaImagem n) := by
  intro ms
  induction ms with
  | nil => intro _ c n; rfl
  | cons m ms ih =>
    intro hms c n
    have h1 : subPat m c (etiquetaImagem n) = (c, etiquetaImagem n) :=
      subPat_etiqueta (hms m (by simp)) c n
    show aplicaPadroes ms (subPat m c (etiquetaImagem n)).1
      (subPat m c (etiquetaImagem n)).2 = _
    rw [h1]
    exact ih (fun m' hm' => hms m' (by simp [hm'])) c n

theorem substituirImagens_etiqueta (c n : Nat) :
    substituirImagens c (etiquetaImagem n) = (c, etiquetaImagem n) :=
  aplicaPadroes_etiqueta padroesImagem (fun _ h => h) c n

/-! ## Page assembly (C1, C2, C4) -/

theorem insereConteudo_chaves (grupos : List (Nat × List (List Char)))
    (p : Nat) (s : List Char) :
    (insereConteudo grupos p s).map Prod.fst
      = if p ∈ grupos.map Prod.fst then grupos.map Prod.fst
        else grupos.map Prod.fst ++ [p] := by
  induction grupos with
  | nil => simp [insereConteudo]
  | cons g resto ih =>
    obtain ⟨q, ss⟩ := g
    by_cases hqp : q = p
    · subst hqp
      simp [insereConteudo]
    · rw [show insereConteudo ((q, ss) :: resto) p s
          = (q, ss) :: insereConteudo resto p s from by
        simp [insereConteudo, hqp]]
      rw [List.map_cons, ih, List.map_cons]
      by_cases hp : p ∈ resto.map Prod.fst
      · rw [if_pos hp, if_pos (by simp [hp])]
      · rw [if_neg hp, if_neg (by
          simp only [List.mem_cons]
          rintro (h | h)
          · exact hqp h.symm
          · exact hp h)]
        simp

theorem insereConteudo_nodup {grupos : List (Nat × List (List Char))}
    (h : (grupos.map Prod.fst).Nodup) (p : Nat) (s : List Char) :
    ((insereConteudo grupos p s).map Prod.fst).Nodup := by
  rw [insereConteudo_chaves]
  by_cases hp : p ∈ grupos.map Prod.fst
  · rw [if_pos hp]; exact h
  · rw [if_neg hp]
    exact ((List.perm_append_singleton p _).nodup_iff).mpr
      (List.nodup_cons.mpr ⟨hp, h⟩)

theorem buscaConteudos_insere (grupos : List (Nat × List (List Char)))
    (p q : Nat) (s : List Char) :
    buscaConteudos (insereConteudo grupos p s) q
      = if p = q then buscaConteudos grupos q ++ [s]
        else buscaConteudos grupos q := by
  induction grupos with
  | nil =>
    by_cases hpq : p = q <;> simp [insereConteudo, buscaConteudos, hpq]
  | cons g resto ih =>
    obtain ⟨r, ss⟩ := g
    by_cases hrp : r = p
    · rw [show insereConteudo ((r, ss) :: resto) p s
          = (r, ss ++ [s]) :: resto from by simp [insereConteudo, hrp]]
      by_cases hrq : r = q
      · have hpq : p = q := hrp.symm.trans hrq
        rw [if_pos hpq]
        simp [buscaConteudos, hrq]
      · have hpq : ¬p = q := fun h => hrq (hrp.trans h)
        rw [if_neg hpq]
        simp [buscaConteudos, hrq]
    · rw [show insereConteudo ((r, ss) :: resto) p s
          = (r, ss) :: insereConteudo resto p s from by
        simp [insereConteudo, hrp]]
      by_cases hrq : r = q
      · have hpq : ¬p = q := fun h => hrp (hrq.trans h.symm)
        rw [if_neg hpq]
        simp [buscaConteudos, hrq]
      · simp [buscaConteudos, hrq, ih]

theorem agrupaAux_busca :
    ∀ (itens : List ItemConversao) (c : Nat)
      (grupos : List (Nat × List (List Char))) (p : Nat),
      buscaConteudos (agrupaAux c grupos itens).2 p
        = buscaConteudos grupos p ++ conteudosNaPagina c p itens := by
  intro itens
  induction itens with
  | nil => intro c grupos p; simp [agrupaAux, conteudosNaPagina]
  | cons it resto ih =>
    intro c grupos p
    have econt : conteudosNaPagina c p (it :: resto)
        = (if paginaDoItem it = p ∧ ¬(conteudoDoItem c it).2.isEmpty = true
            then [(conteudoDoItem c it).2] else [])
          ++ conteudosNaPagina (conteudoDoItem c it).1 p resto := rfl
    by_cases he : (conteudoDoItem c it).2.isEmpty = true
    · rw [show agrupaAux c grupos (it :: resto)
          = agrupaAux (conteudoDoItem c it).1 grupos resto from by
        simp [agrupaAux, he]]
      rw [ih, econt, if_neg (by simp [he])]
      simp
    · rw [show agrupaAux c grupos (it :: resto)
          = agrupaAux (conteudoDoItem c it).1
              (insereConteudo grupos (paginaDoItem it) (conteudoDoItem c it).2)
              resto from by simp [agrupaAux, he]]
      rw [ih, buscaConteudos_insere, econt]
      by_cases hpp : paginaDoItem it = p
      · rw [if_pos hpp, if_pos ⟨hpp, he⟩]
        simp
      · rw [if_neg hpp, if_neg (fun h => hpp h.1)]
        simp

theorem agrupaAux_nodup :
    ∀ (itens : List ItemConversao) (c : Nat)
      (grupos : List (Nat × List (List Char))),
      (grupos.map Prod.fst).Nodup →
      ((agrupaAux c grupos itens).2.map Prod.fst).Nodup := by
  intro itens
  induction itens with
  | nil => intro c grupos h; exact h
  | cons it resto ih =>
    intro c grupos h
    by_cases he : (conteudoDoItem c it).2.isEmpty = true
    · rw [show agrupaAux c grupos (it :: resto)
          = agrupaAux (conteudoDoItem c it).1 grupos resto from by
        simp [agrupaAux, he]]
      exact ih _ _ h
    · rw [show agrupaAux c grupos (it :: resto)
          = agrupaAux (conteudoDoItem c it).1
              (insereConteudo grupos (paginaDoItem it) (conteudoDoItem c it).2)
              resto from by simp [agrupaAux, he]]
      exact ih _ _ (insereConteudo_nodup h _ _)

theorem chavesOrdenadas_crescentes (grupos : List (Nat × List (List Char)))
    (h : (grupos.map Prod.fst).Nodup) :
    List.Pairwise (· < ·) (chavesOrdenadas grupos) := by
  have hs : List.Sorted (· ≤ ·) (chavesOrdenadas grupos) :=
    List.sorted_insertionSort _ _
  have hn : List.Pairwise (· ≠ ·) (chavesOrdenadas grupos) :=
    (List.perm_insertionSort _ _).nodup_iff.mpr h
  exact (List.Pairwise.and hs hn).imp (fun h2 => lt_of_le_of_ne h2.1 h2.2)

/-- C1: for every item stream, the page dictionary built by the grouping loop
has pairwise-distinct page keys, pages are emitted in strictly ascending
page-number order, and the content list of every page is exactly the
non-empty contents of the items attributed to that page in encounter order;
and on the spec's example stream (page 2 item "b" discovered before page 1
item "a") the assembled markdown emits page 001 (with "a") before page 002
(with "b"). -/
theorem c1_paginas_ordenadas : ∀ (c : Nat) (itens : List ItemConversao),
    ((agrupaPaginas c itens).2.map Prod.fst).Nodup ∧
    List.Pairwise (· < ·) (chavesOrdenadas (agrupaPaginas c itens).2) ∧
    (∀ p, buscaConteudos (agrupaPaginas c itens).2 p
      = conteudosNaPagina c p itens) ∧
    (montarMarkdown 0 ("fb".toList)
      [⟨[some 2], "TextItem".toList, ExportMd.ok ("b".toList), none⟩,
       ⟨[some 1], "TextItem".toList, ExportMd.ok ("a".toList), none⟩]).2
      = "\n<PAGINA:001>\n\na\n\n<PAGINA:002>\n\nb\n".toList := by
  intro c itens
  have hn : ((agrupaPaginas c itens).2.map Prod.fst).Nodup :=
    agrupaAux_nodup itens c [] (by simp)
  refine ⟨hn, chavesOrdenadas_crescentes _ hn, ?_, ?_⟩
  · intro p
    have h2 := agrupaAux_busca itens c [] p
    simpa [buscaConteudos] using h2
  · decide

theorem agrupaAux_semConteudo :
    ∀ (itens : List ItemConversao) (c : Nat)
      (grupos : List (Nat × List (List Char))),
      (∀ it ∈ itens, ehTipoImagem it = false ∧ conteudoSemImagem it = []) →
      agrupaAux c grupos itens = (c, grupos) := by
  intro itens
  induction itens with
  | nil => intro c grupos _; rfl
  | cons it resto ih =>
    intro c grupos h
    obtain ⟨h1, h2⟩ := h it (by simp)
    have hc : conteudoDoItem c it = (c, []) := by
      simp [conteudoDoItem, h1, h2]
    rw [show agrupaAux c grupos (it :: resto)
        = agrupaAux (conteudoDoItem c it).1 grupos resto from by
      simp [agrupaAux, hc]]
    rw [hc]
    exact ih c grupos (fun it2 hm => h it2 (by simp [hm]))

/-- C2: whenever no item yields any content (in particular for the empty
stream), the assembly takes the fallback branch: the result is exactly the
single synthesized page `<PAGINA:001>` followed by a blank line and the
converter's whole-document export, passed through the image tagger, and the
final markdown is that text passed through the text normalizer afterwards. -/
theorem c2_fluxo_fallback : ∀ (c : Nat) (exportCompleto : List Char)
    (itens : List ItemConversao),
    (∀ it ∈ itens, ehTipoImagem it = false ∧ conteudoSemImagem it = []) →
    montarMarkdown c exportCompleto itens
      = substituirImagens c (etiquetaPagina 1 ++ doisNl ++ exportCompleto) ∧
    markdownFinal exportCompleto itens
      = limpar_texto
          (substituirImagens 0
            (etiquetaPagina 1 ++ doisNl ++ exportCompleto)).2 := by
  intro c exportCompleto itens h
  have hg : agrupaPaginas c itens = (c, []) := agrupaAux_semConteudo itens c [] h
  have hg0 : agrupaPaginas 0 itens = (0, []) :=
    agrupaAux_semConteudo itens 0 [] h
  constructor
  · simp [montarMarkdown, hg]
  · simp [markdownFinal, montarMarkdown, hg0]

/-- Witness for C2 at the empty item stream. -/
theorem c2_fluxo_fallback_witness :
    montarMarkdown 0 ("doc".toList) []
      = substituirImagens 0 (etiquetaPagina 1 ++ doisNl ++ "doc".toList) ∧
    markdownFinal ("doc".toList) []
      = limpar_texto
          (substituirImagens 0
            (etiquetaPagina 1 ++ doisNl ++ "doc".toList)).2 :=
  c2_fluxo_fallback 0 ("doc".toList) [] (by simp)

theorem intercalate_um (sep x : List Char) : List.intercalate sep [x] = x := by
  simp [List.intercalate]

/-- C4: a picture-kind item is counted exactly once.  The synthesized tag
`<IMAGEM:NNN>` matches none of the six textual image patterns (neither at its
head nor anywhere inside), so passing it through
`_substituir_imagens_markdown` changes neither the text nor the counter; and
end to end, assembling a stream consisting of one picture item leaves the
image counter incremented exactly once. -/
theorem c4_item_imagem_uma_vez : ∀ (c n : Nat) (it : ItemConversao)
    (fb : List Char), ehTipoImagem it = true →
    (∀ m ∈ padroesImagem, m (etiquetaImagem n) = none) ∧
    substituirImagens c (etiquetaImagem n) = (c, etiquetaImagem n) ∧
    (montarMarkdown c fb [it]).1 = c + 1 := by
  intro c n it fb hit
  refine ⟨fun m hm => cabeca_etiqueta_nenhum hm n,
    substituirImagens_etiqueta c n, ?_⟩
  have h1 : conteudoDoItem c it = (c + 1, etiquetaImagem (c + 1)) := by
    simp [conteudoDoItem, hit]
  have h2 : agrupaPaginas c [it]
      = (c + 1, [(paginaDoItem it, [etiquetaImagem (c + 1)])]) := by
    simp [agrupaPaginas, agrupaAux, h1, insereConteudo, etiquetaImagem]
  rw [show montarMarkdown c fb [it]
      = rendePaginas [(paginaDoItem it, [etiquetaImagem (c + 1)])] (c + 1)
          (chavesOrdenadas [(paginaDoItem it, [etiquetaImagem (c + 1)])])
      from by simp [montarMarkdown, h2]]
  rw [show chavesOrdenadas [(paginaDoItem it, [etiquetaImagem (c + 1)])]
      = [paginaDoItem it] from by
    simp [chavesOrdenadas, List.insertionSort, List.orderedInsert]]
  simp [rendePaginas, buscaConteudos, intercalate_um,
    substituirImagens_etiqueta]

/-- Witness for C4 at a concrete picture item and counter. -/
theorem c4_item_imagem_uma_vez_witness :
    (∀ m ∈ padroesImagem, m (etiquetaImagem 5) = none) ∧
    substituirImagens 0 (etiquetaImagem 5) = (0, etiquetaImagem 5) ∧
    (montarMarkdown 0 ("fb".toList)
      [⟨[some 1], "PictureItem".toList, ExportMd.semAtributo, none⟩]).1
      = 0 + 1 :=
  c4_item_imagem_uma_vez 0 5
    ⟨[some 1], "PictureItem".toList, ExportMd.semAtributo, none⟩
    ("fb".toList) (by decide)

/-! ## Batch loop (C7, C9, C10) -/

theorem passoLote_ignorado {a : ArquivoLote} {sobrescrever : Bool}
    (h : (a.saidaExiste && !sobrescrever) = true) (s : Estatisticas) :
    passoLote sobrescrever s a
      = ({ s with ignorados := s.ignorados + 1 }, false) := by
  simp [passoLote, h]

theorem passoLote_tentado {a : ArquivoLote} {sobrescrever : Bool}
    (h : (a.saidaExiste && !sobrescrever) = false) (s : Estatisticas) :
    (passoLote sobrescrever s a).1.processados = s.processados + 1 ∧
    (passoLote sobrescrever s a).1.ignorados = s.ignorados ∧
    ((passoLote sobrescrever s a).1.sucesso = s.sucesso + 1
        ∧ (passoLote sobrescrever s a).1.falha = s.falha
      ∨ (passoLote sobrescrever s a).1.sucesso = s.sucesso
        ∧ (passoLote sobrescrever s a).1.falha = s.falha + 1) := by
  cases hr : a.resultado <;> simp [passoLote, h, hr]

theorem passoLote_soma (sobrescrever : Bool) (s : Estatisticas)
    (a : ArquivoLote) :
    (passoLote sobrescrever s a).1
      = somaEstat s (passoLote sobrescrever estatZero a).1 := by
  by_cases h : (a.saidaExiste && !sobrescrever) = true
  · simp [passoLote, h, somaEstat, estatZero]
  · have hf : (a.saidaExiste && !sobrescrever) = false := by simpa using h
    cases hr : a.resultado <;>
      simp [passoLote, hf, hr, somaEstat, estatZero]

theorem loteAux_estat (sobrescrever : Bool) :
    ∀ (arquivos : List ArquivoLote) (s : Estatisticas)
      (inv : List ArquivoLote),
      (loteAux sobrescrever s inv arquivos).1
        = somaEstat s (estatisticasLote sobrescrever arquivos) := by
  intro arquivos
  induction arquivos with
  | nil =>
    intro s inv
    simp [loteAux, estatisticasLote, somaEstat, estatZero]
  | cons a resto ih =>
    intro s inv
    rw [show loteAux sobrescrever s inv (a :: resto)
        = loteAux sobrescrever (passoLote sobrescrever s a).1
            (if (passoLote sobrescrever s a).2 then inv ++ [a] else inv)
            resto from rfl]
    rw [ih, passoLote_soma]
    rw [show estatisticasLote sobrescrever (a :: resto)
        = (loteAux sobrescrever (passoLote sobrescrever estatZero a).1
            (if (passoLote sobrescrever estatZero a).2 then [a] else [])
            resto).1 from rfl]
    rw [ih]
    simp [somaEstat, Nat.add_assoc]

theorem loteAux_append (sobrescrever : Bool) :
    ∀ (l1 l2 : List ArquivoLote) (s : Estatisticas)
      (inv : List ArquivoLote),
      loteAux sobrescrever s inv (l1 ++ l2)
        = loteAux sobrescrever (loteAux sobrescrever s inv l1).1
            (loteAux sobrescrever s inv l1).2 l2 := by
  intro l1
  induction l1 with
  | nil => intro l2 s inv; rfl
  | cons a resto ih =>
    intro l2 s inv
    show loteAux sobrescrever (passoLote sobrescrever s a).1
        (if (passoLote sobrescrever s a).2 then inv ++ [a] else inv)
        (resto ++ l2) = _
    rw [ih]
    rfl

theorem estatisticasLote_append (sobrescrever : Bool)
    (l1 l2 : List ArquivoLote) :
    estatisticasLote sobrescrever (l1 ++ l2)
      = somaEstat (estatisticasLote sobrescrever l1)
          (estatisticasLote sobrescrever l2) := by
  show (loteAux sobrescrever estatZero [] (l1 ++ l2)).1 = _
  rw [loteAux_append, loteAux_estat]
  rfl

theorem estatisticasLote_invariante (sobrescrever : Bool) :
    ∀ arquivos : List ArquivoLote,
      (estatisticasLote sobrescrever arquivos).processados
        = (estatisticasLote sobrescrever arquivos).sucesso
          + (estatisticasLote sobrescrever arquivos).falha := by
  intro arquivos
  induction arquivos with
  | nil => rfl
  | cons a resto ih =>
    have h1 : estatisticasLote sobrescrever (a :: resto)
        = somaEstat (estatisticasLote sobrescrever [a])
            (estatisticasLote sobrescrever resto) :=
      estatisticasLote_append sobrescrever [a] resto
    have h2 : (estatisticasLote sobrescrever [a]).processados
        = (estatisticasLote sobrescrever [a]).sucesso
          + (estatisticasLote sobrescrever [a]).falha := by
      by_cases h : (a.saidaExiste && !sobrescrever) = true
      · simp [estatisticasLote, loteAux, passoLote, h, estatZero]
      · have hf : (a.saidaExiste && !sobrescrever) = false := by simpa using h
        cases hr : a.resultado <;>
          simp [estatisticasLote, loteAux, passoLote, hf, hr, estatZero]
    rw [h1]
    simp only [somaEstat]
    omega

theorem estatLE_soma (a b : Estatisticas) : estatLE a (somaEstat a b) := by
  refine ⟨?_, ?_, ?_, ?_⟩ <;> simp [somaEstat]

/-- C10: batch statistics invariants.  The loop statistics always satisfy
`processados = sucesso + falha`; the statistics of a prefix of the run are
component-wise at most those of the full run (counters only ever grow); a
skipped file (output exists, overwrite off) bumps only `ignorados` and does
not invoke the job; an attempted file bumps `processados` and exactly one of
`sucesso`/`falha`, leaving `ignorados` unchanged. -/
theorem c10_estatisticas_invariante : ∀ (sobrescrever : Bool)
    (arquivos pre suf : List ArquivoLote) (s : Estatisticas)
    (a : ArquivoLote),
    (estatisticasLote sobrescrever arquivos).processados
      = (estatisticasLote sobrescrever arquivos).sucesso
        + (estatisticasLote sobrescrever arquivos).falha ∧
    (arquivos = pre ++ suf →
      estatLE (estatisticasLote sobrescrever pre)
        (estatisticasLote sobrescrever arquivos)) ∧
    ((a.saidaExiste && !sobrescrever) = true →
      passoLote sobrescrever s a
        = ({ s with ignorados := s.ignorados + 1 }, false)) ∧
    ((a.saidaExiste && !sobrescrever) = false →
      (passoLote sobrescrever s a).1.processados = s.processados + 1 ∧
      (passoLote sobrescrever s a).1.ignorados = s.ignorados ∧
      ((passoLote sobrescrever s a).1.sucesso = s.sucesso + 1
          ∧ (passoLote sobrescrever s a).1.falha = s.falha
        ∨ (passoLote sobrescrever s a).1.sucesso = s.sucesso
          ∧ (passoLote sobrescrever s a).1.falha = s.falha + 1)) := by
  intro sob arquivos pre suf s a
  refine ⟨estatisticasLote_invariante sob arquivos, ?_,
    fun h => passoLote_ignorado h s, fun h => passoLote_tentado h s⟩
  rintro rfl
  rw [estatisticasLote_append]
  exact estatLE_soma _ _

/-- Witness for C10 at concrete inputs: the prefix bound, the skip step and
the attempted step, each with its hypothesis discharged. -/
theorem c10_estatisticas_invariante_witness :
    estatLE (estatisticasLote false [])
      (estatisticasLote false [⟨false, ResultadoJob.sucesso⟩]) ∧
    passoLote false estatZero ⟨true, ResultadoJob.sucesso⟩
      = ({ estatZero with ignorados := estatZero.ignorados + 1 }, false) ∧
    (passoLote false estatZero ⟨false, ResultadoJob.excecao⟩).1.processados
      = estatZero.processados + 1 := by
  refine ⟨?_, ?_, ?_⟩
  · exact (c10_estatisticas_invariante false [⟨false, ResultadoJob.sucesso⟩]
      [] [⟨false, ResultadoJob.sucesso⟩] estatZero
      ⟨false, ResultadoJob.sucesso⟩).2.1 rfl
  · exact (c10_estatisticas_invariante false [] [] [] estatZero
      ⟨true, ResultadoJob.sucesso⟩).2.2.1 (by decide)
  · exact ((c10_estatisticas_invariante false [] [] [] estatZero
      ⟨false, ResultadoJob.excecao⟩).2.2.2 (by decide)).1

theorem loteAux_todosIgnorados : ∀ (arquivos : List ArquivoLote)
    (s : Estatisticas) (inv : List ArquivoLote),
    (∀ a ∈ arquivos, a.saidaExiste = true) →
    loteAux false s inv arquivos
      = ({ s with ignorados := s.ignorados + arquivos.length }, inv) := by
  intro arquivos
  induction arquivos with
  | nil => intro s inv _; simp [loteAux]
  | cons a resto ih =>
    intro s inv h
    have ha : (a.saidaExiste && !false) = true := by
      simp [h a (by simp)]
    rw [show loteAux false s inv (a :: resto)
        = loteAux false (passoLote false s a).1
            (if (passoLote false s a).2 then inv ++ [a] else inv)
            resto from rfl]
    rw [passoLote_ignorado ha]
    simp only [if_false, Bool.false_eq_true]
    rw [ih _ _ (fun a2 hm => h a2 (by simp [hm]))]
    simp only [List.length_cons, Prod.mk.injEq]
    refine ⟨?_, trivial⟩
    congr 1
    omega

/-- C7: with overwrite off, every discovered file whose output already exists
is skipped: the run reports 0 processed, 0 succeeded, 0 failed, every file
counted as skipped, and the per-file extraction job is never invoked. -/
theorem c7_pular_existentes : ∀ (cfg : ConfigLote)
    (arquivos : List ArquivoLote),
    cfg.sobrescrever = false →
    abortaPorDependencias cfg = false →
    (∀ a ∈ arquivos, a.saidaExiste = true) →
    processarLote cfg arquivos = (⟨0, 0, 0, arquivos.length⟩, []) := by
  intro cfg arquivos hs hd hex
  rw [show processarLote cfg arquivos
      = loteAux cfg.sobrescrever estatZero [] arquivos from by
    simp [processarLote, hd]]
  rw [hs, loteAux_todosIgnorados arquivos estatZero [] hex]
  simp [estatZero]

/-- Witness for C7: a second run over two files whose outputs exist. -/
theorem c7_pular_existentes_witness :
    processarLote ⟨false, true, true, true⟩
      [⟨true, ResultadoJob.sucesso⟩, ⟨true, ResultadoJob.falha⟩]
      = (⟨0, 0, 0, 2⟩, []) :=
  c7_pular_existentes ⟨false, true, true, true⟩
    [⟨true, ResultadoJob.sucesso⟩, ⟨true, ResultadoJob.falha⟩]
    rfl (by decide) (by decide)

/-- C9: failure containment.  A converter exception makes `extrair` return
`false` instead of propagating; the batch statistics are additive over
concatenation of the file list (every later file is still processed,
whatever happened before); and a file whose job raises is counted as one
processed failure. -/
theorem c9_excecoes_contidas : ∀ (env : AmbienteJob) (e : List Char)
    (sobrescrever : Bool) (l1 l2 : List ArquivoLote) (a : ArquivoLote),
    (env.conversao = Except.error e → extrairJob env = false) ∧
    estatisticasLote sobrescrever (l1 ++ l2)
      = somaEstat (estatisticasLote sobrescrever l1)
          (estatisticasLote sobrescrever l2) ∧
    (a.resultado = ResultadoJob.excecao →
      (a.saidaExiste && !sobrescrever) = false →
      estatisticasLote sobrescrever [a] = ⟨1, 0, 1, 0⟩) := by
  intro env e sob l1 l2 a
  refine ⟨?_, estatisticasLote_append sob l1 l2, ?_⟩
  · intro hconv
    simp [extrairJob, hconv]
  · intro hr hex
    simp [estatisticasLote, loteAux, passoLote, hex, hr, estatZero]

/-- Witness for C9: a concrete erroring environment and a concrete raising
file inside a two-file batch. -/
theorem c9_excecoes_contidas_witness :
    extrairJob ⟨true, true, true, true, true,
      Except.error ("boom".toList), true⟩ = false ∧
    estatisticasLote false
        ([⟨false, ResultadoJob.excecao⟩] ++ [⟨false, ResultadoJob.sucesso⟩])
      = somaEstat (estatisticasLote false [⟨false, ResultadoJob.excecao⟩])
          (estatisticasLote false [⟨false, ResultadoJob.sucesso⟩]) ∧
    estatisticasLote false [⟨false, ResultadoJob.excecao⟩] = ⟨1, 0, 1, 0⟩ := by
  have h := c9_excecoes_contidas
    ⟨true, true, true, true, true, Except.error ("boom".toList), true⟩
    ("boom".toList) false [⟨false, ResultadoJob.excecao⟩]
    [⟨false, ResultadoJob.sucesso⟩] ⟨false, ResultadoJob.excecao⟩
  exact ⟨h.1 rfl, h.2.1, h.2.2 rfl (by decide)⟩

/-! ## File discovery (C8) -/

theorem removeDuplicados_nodup :
    ∀ (l : List EntradaFs) (vistos : List (List Char)),
      ((removeDuplicados vistos l).map caminhoNormalizado).Nodup ∧
      ∀ k ∈ vistos, k ∉ (removeDuplicados vistos l).map caminhoNormalizado := by
  intro l
  induction l with
  | nil => intro vistos; exact ⟨List.nodup_nil, by simp [removeDuplicados]⟩
  | cons e resto ih =>
    intro vistos
    by_cases hv : caminhoNormalizado e ∈ vistos
    · rw [show removeDuplicados vistos (e :: resto)
          = removeDuplicados vistos resto from by simp [removeDuplicados, hv]]
      exact ih vistos
    · rw [show removeDuplicados vistos (e :: resto)
          = e :: removeDuplicados (caminhoNormalizado e :: vistos) resto
        from by simp [removeDuplicados, hv]]
      obtain ⟨ih1, ih2⟩ := ih (caminhoNormalizado e :: vistos)
      constructor
      · rw [List.map_cons, List.nodup_cons]
        exact ⟨ih2 _ (by simp), ih1⟩
      · intro k hk
        rw [List.map_cons]
        simp only [List.mem_cons]
        rintro (h | h)
        · exact hv (h ▸ hk)
        · exact ih2 k (List.mem_cons_of_mem _ hk) h

theorem removeDuplicados_completo :
    ∀ (l : List EntradaFs) (vistos : List (List Char)) (x : EntradaFs),
      x ∈ l → caminhoNormalizado x ∉ vistos →
      ∃ y ∈ removeDuplicados vistos l,
        caminhoNormalizado y = caminhoNormalizado x := by
  intro l
  induction l with
  | nil => intro vistos x hx _; simp at hx
  | cons e resto ih =>
    intro vistos x hx hv
    by_cases he : caminhoNormalizado e ∈ vistos
    · rw [show removeDuplicados vistos (e :: resto)
          = removeDuplicados vistos resto from by simp [removeDuplicados, he]]
      rcases List.mem_cons.mp hx with rfl | hx2
      · exact absurd he hv
      · exact ih vistos x hx2 hv
    · rw [show removeDuplicados vistos (e :: resto)
          = e :: removeDuplicados (caminhoNormalizado e :: vistos) resto
        from by simp [removeDuplicados, he]]
      rcases List.mem_cons.mp hx with rfl | hx2
      · exact ⟨x, by simp, rfl⟩
      · by_cases hxe : caminhoNormalizado x = caminhoNormalizado e
        · exact ⟨e, by simp, hxe.symm⟩
        · obtain ⟨y, hy1, hy2⟩ := ih (caminhoNormalizado e :: vistos) x hx2
            (by
              simp only [List.mem_cons]
              rintro (h | h)
              · exact hxe h
              · exact hv h)
          exact ⟨y, by simp [hy1], hy2⟩

theorem removeDuplicados_subconjunto :
    ∀ (l : List EntradaFs) (vistos : List (List Char)) (y : EntradaFs),
      y ∈ removeDuplicados vistos l → y ∈ l := by
  intro l
  induction l with
  | nil =>
    intro vistos y h
    simp [removeDuplicados] at h
  | cons e resto ih =>
    intro vistos y h
    by_cases he : caminhoNormalizado e ∈ vistos
    · rw [show removeDuplicados vistos (e :: resto)
          = removeDuplicados vistos resto from by
        simp [removeDuplicados, he]] at h
      exact List.mem_cons_of_mem _ (ih _ y h)
    · rw [show removeDuplicados vistos (e :: resto)
          = e :: removeDuplicados (caminhoNormalizado e :: vistos) resto
        from by simp [removeDuplicados, he]] at h
      rcases List.mem_cons.mp h with rfl | h2
      · simp
      · exact List.mem_cons_of_mem _ (ih _ y h2)

/-- C8 (amended): discovery matches exactly the extensions `.pdf` and `.PDF`
(the two glob patterns; a mixed-case extension such as `.Pdf` is not found,
see the counterexample), restricted to the top level unless `subpastas`;
the result is sorted by path, its lower-cased paths are pairwise distinct
(no two results differ only in letter case), every in-scope matching file is
represented up to case normalization, and nothing else is returned. -/
theorem c8_listagem : ∀ (fs : List EntradaFs) (subpastas : Bool),
    List.Sorted RelCaminho (listarPdfs fs subpastas) ∧
    ((listarPdfs fs subpastas).map caminhoNormalizado).Nodup ∧
    (∀ e ∈ fs, noEscopo subpastas e = true →
      (terminaCom (".pdf".toList) e.nome = true ∨
       terminaCom (".PDF".toList) e.nome = true) →
      ∃ e2 ∈ listarPdfs fs subpastas,
        caminhoNormalizado e2 = caminhoNormalizado e) ∧
    (∀ e2 ∈ listarPdfs fs subpastas,
      e2 ∈ fs ∧ noEscopo subpastas e2 = true ∧
      (terminaCom (".pdf".toList) e2.nome = true ∨
       terminaCom (".PDF".toList) e2.nome = true)) := by
  intro fs sub
  refine ⟨List.sorted_insertionSort _ _, ?_, ?_, ?_⟩
  · have h1 := (removeDuplicados_nodup
      (globPdfMinusculo sub fs ++ globPdfMaiusculo sub fs) []).1
    have hp := List.perm_insertionSort RelCaminho
      (removeDuplicados [] (globPdfMinusculo sub fs ++ globPdfMaiusculo sub fs))
    exact ((hp.map caminhoNormalizado).nodup_iff).mpr h1
  · intro e he hesc hext
    have hmem : e ∈ globPdfMinusculo sub fs ++ globPdfMaiusculo sub fs := by
      rcases hext with h | h
      · refine List.mem_append_left _ (List.mem_filter.mpr ⟨he, ?_⟩)
        show (noEscopo sub e && terminaCom (".pdf".toList) e.nome) = true
        rw [Bool.and_eq_true]
        exact ⟨hesc, h⟩
      · refine List.mem_append_right _ (List.mem_filter.mpr ⟨he, ?_⟩)
        show (noEscopo sub e && terminaCom (".PDF".toList) e.nome) = true
        rw [Bool.and_eq_true]
        exact ⟨hesc, h⟩
    obtain ⟨y, hy1, hy2⟩ := removeDuplicados_completo _ [] e hmem (by simp)
    refine ⟨y, ?_, hy2⟩
    exact ((List.perm_insertionSort RelCaminho _).mem_iff).mpr hy1
  · intro e2 h2
    have h3 : e2 ∈ removeDuplicados []
        (globPdfMinusculo sub fs ++ globPdfMaiusculo sub fs) :=
      ((List.perm_insertionSort RelCaminho _).mem_iff).mp h2
    have h4 := removeDuplicados_subconjunto _ [] e2 h3
    rcases List.mem_append.mp h4 with h5 | h5
    · obtain ⟨h6, h7⟩ := List.mem_filter.mp h5
      rw [Bool.and_eq_true] at h7
      exact ⟨h6, h7.1, Or.inl h7.2⟩
    · obtain ⟨h6, h7⟩ := List.mem_filter.mp h5
      rw [Bool.and_eq_true] at h7
      exact ⟨h6, h7.1, Or.inr h7.2⟩

/-- Witness for C8 at a concrete file system containing one `x.pdf`. -/
theorem c8_listagem_witness :
    ∃ e2 ∈ listarPdfs [⟨[], "x.pdf".toList⟩] true,
      caminhoNormalizado e2 = caminhoNormalizado ⟨[], "x.pdf".toList⟩ :=
  (c8_listagem [⟨[], "x.pdf".toList⟩] true).2.2.1 ⟨[], "x.pdf".toList⟩
    (by simp) (by decide) (Or.inl (by decide))

/-- C8 counterexample: discovery is not case-insensitive on the extension.
The file `a.Pdf` has extension `.pdf` up to case (its lower-cased path ends
in `.pdf`), yet neither glob pattern matches it and the listing is empty. -/
theorem c8_contraexemplo :
    listarPdfs [⟨[], "a.Pdf".toList⟩] true = [] ∧
    terminaCom (".pdf".toList)
      (caminhoNormalizado ⟨[], "a.Pdf".toList⟩) = true := by
  constructor <;> decide

end ExtratorPdf
